import Mathlib

/-!
Shallow embedding of `salomeToOpenFOAM_GUI_FixSelect.py` (the OpenFOAM mesh
exporter for Salome) and verification of its specification claims.

The host mesh platform (Salome) is an external collaborator: a `Mesh` value
below carries exactly the data the script queries from it (per-element node
lists, face groups, the free-face id set, per-cell face enumerations, node
coordinates).  All algorithmic code (`exportToFoam` and its helpers) is
translated from the Python source.  Python list indexing (negative wrap,
IndexError), `dict` lookup/insert and the `try/except KeyError` control flow
are modelled explicitly; floating point arithmetic is modelled over `ℚ`
(the claims below evaluate it only on inputs where IEEE double arithmetic
is exact, so the rational model agrees with the source).
-/

namespace SalomeToFoam

/-! ### Python list and dict primitives -/

/-- Python index resolution: negative indices wrap once; out of range is `none`. -/
def pyIdx (len : Nat) (i : Int) : Option Nat :=
  let j : Int := if i < 0 then i + len else i
  if 0 ≤ j ∧ j < len then some j.toNat else none

/-- Python `l[i]` (read): raises `IndexError` when out of range. -/
def pyGet {α : Type} (l : List α) (i : Int) : Except String α :=
  match pyIdx l.length i with
  | some j =>
    match l.get? j with
    | some v => .ok v
    | none => .error "IndexError"
  | none => .error "IndexError"

/-- Python `l[i] = v` (index assignment): raises `IndexError` when out of range. -/
def pySet {α : Type} (l : List α) (i : Int) (v : α) : Except String (List α) :=
  match pyIdx l.length i with
  | some j => .ok (l.set j v)
  | none => .error "IndexError"

/-- Python `k in d` for a dict modelled as an association list. -/
def dictContains {κ α : Type} [DecidableEq κ] (d : List (κ × α)) (k : κ) : Bool :=
  d.any fun p => decide (p.1 = k)

/-- Python `d[k]` lookup (`none` models a `KeyError`). -/
def dictLookup {κ α : Type} [DecidableEq κ] (d : List (κ × α)) (k : κ) : Option α :=
  (d.find? fun p => decide (p.1 = k)).map Prod.snd

/-- Python `d[k] = v`: replaces the value of an existing key, else appends. -/
def dictInsert {κ α : Type} [DecidableEq κ] (d : List (κ × α)) (k : κ) (v : α) : List (κ × α) :=
  if dictContains d k then d.map (fun p => if p.1 = k then (k, v) else p)
  else d ++ [(k, v)]

/-! ### Face keys (`MeshBuffer.Key` / `MeshBuffer.ReverseKey`)

`Key` is Python's `tuple(sorted(fnodes))`, `ReverseKey` is
`tuple(sorted(fnodes, reverse=True))` (the list branch of the source; the
tuple branch is never reached by the call sites, which always pass node
lists). -/

def insertLe (x : Nat) : List Nat → List Nat
  | [] => [x]
  | y :: ys => if x ≤ y then x :: y :: ys else y :: insertLe x ys

/-- Insertion sort, ascending: Python's `sorted` on node ids. -/
def sortAsc : List Nat → List Nat
  | [] => []
  | x :: xs => insertLe x (sortAsc xs)

/-- `MeshBuffer.Key`: the canonical (order-independent) face key. -/
def Key (fnodes : List Nat) : List Nat := sortAsc fnodes

/-- `MeshBuffer.ReverseKey`: descending sort, used for baffle twins. -/
def ReverseKey (fnodes : List Nat) : List Nat := (sortAsc fnodes).reverse

/-! ### Geometry kernel (`__cog__`, `__diff__`, `__dotprod__`,
`__crossprod__`, `__calcNormal__`, `__verifyFaceOrder__`) over `ℚ`. -/

structure V3 where
  x : ℚ
  y : ℚ
  z : ℚ
deriving DecidableEq

/-- `__diff__`: `u - v` componentwise. -/
def diff (u v : V3) : V3 := ⟨u.x - v.x, u.y - v.y, u.z - v.z⟩

/-- `__dotprod__`. -/
def dotprod (u v : V3) : ℚ := u.x * v.x + u.y * v.y + u.z * v.z

/-- `__crossprod__`. -/
def crossprod (u v : V3) : V3 :=
  ⟨u.y * v.z - u.z * v.y, u.z * v.x - u.x * v.z, u.x * v.y - u.y * v.x⟩

/-- `__cog__`: arithmetic mean of the listed nodes' positions
(`pts` is the host's `GetNodeXYZ`). -/
def cog (pts : Nat → V3) (nodes : List Nat) : V3 :=
  let c := nodes.foldl (fun c n => ⟨c.x + (pts n).x, c.y + (pts n).y, c.z + (pts n).z⟩)
    (⟨0, 0, 0⟩ : V3)
  ⟨c.x / nodes.length, c.y / nodes.length, c.z / nodes.length⟩

/-- `__calcNormal__`: cross product of first-to-second and first-to-last vectors. -/
def calcNormal (pts : Nat → V3) (nodes : List Nat) : V3 :=
  let p0 := pts (nodes.getD 0 0)
  let p1 := pts (nodes.getD 1 0)
  let pn := pts (nodes.getLast?.getD 0)
  crossprod (diff p1 p0) (diff pn p0)

/-- `__verifyFaceOrder__`: `false` iff the face normal points towards the
cell centroid (dot product strictly positive). -/
def verifyFaceOrder (pts : Nat → V3) (vnodes fnodes : List Nat) : Bool :=
  let vc := cog pts vnodes
  let fc := cog pts fnodes
  let fcTovc := diff vc fc
  let fn := calcNormal pts fnodes
  if 0 < dotprod fn fcTovc then false else true

/-- The module-level `verify` flag (`verify=True` in the source). -/
def verify : Bool := true

/-- Lines 335-338 of the cell pass: orientation-correct a new internal
face's node list before recording it. -/
def recordFnodes (pts : Nat → V3) (vnodes fnodes : List Nat) : List Nat :=
  if verify && !(verifyFaceOrder pts vnodes fnodes) then fnodes.reverse else fnodes

/-! ### The host mesh data (`Mesh`) and the boundary-group pass

`Mesh` carries exactly what `exportToFoam` queries from Salome:
`faceElems` is `GetElemNodes` for boundary face elements, `groups` the
`FACE`-type groups in declaration order (name, member ids), `extFaces`
the result of the free-face filter, `cellNodes`/`cellFaces` the per-volume
`GetElemNodes` / `GetElemFaceNodes` enumerations (the `MeshBuffer` data),
and `pts` is `GetNodeXYZ`. -/

structure Mesh where
  faceElems : List (Nat × List Nat)
  groups : List (String × List Nat)
  extFaces : List Nat
  cellNodes : List (List Nat)
  cellFaces : List (List (List Nat))
  pts : Nat → V3

/-- `mesh.GetElemNodes(sfid)` for a boundary face element. -/
def elemNodes (mesh : Mesh) (sfid : Nat) : List Nat :=
  (dictLookup mesh.faceElems sfid).getD []

/-- `extFaces = set(mesh.GetIdsFromFilter(filter))`: the free-face id set
(modelled as the deduplicated id list). -/
def extFacesD (mesh : Mesh) : List Nat := mesh.extFaces.dedup

/-- `nrExtFaces = len(extFaces)`. -/
def nrExtFaces (mesh : Mesh) : Nat := (extFacesD mesh).length

/-- `nrFaces` accumulated over all `MeshBuffer`s (`nrFaces += b.fL`). -/
def sumFL (mesh : Mesh) : Nat := (mesh.cellFaces.map List.length).sum

/-- `nrFaces = int((nrFaces + nrExtFaces) / 2)` (line 172). -/
def nrFaces0 (mesh : Mesh) : Nat := (sumFL mesh + nrExtFaces mesh) / 2

/-- The state mutated by the boundary-group loop (lines 178-274). -/
structure BState where
  bcFaces : List (List Nat)
  bcFacesSorted : List (List Nat × Nat)
  ofbcfid : Nat
  grpStartFace : List Int
  grpNrFaces : List Nat
  grpNames : List String
  nrBCfaces : Nat
  nrFaces : Nat
  nrIntFaces : Int
  nrExtFacesInGroups : Nat
deriving DecidableEq

/-- State before any group is processed (lines 160-191, 172-173). -/
def initBState (mesh : Mesh) : BState where
  bcFaces := []
  bcFacesSorted := []
  ofbcfid := 0
  grpStartFace := []
  grpNrFaces := []
  grpNames := []
  nrBCfaces := nrExtFaces mesh
  nrFaces := nrFaces0 mesh
  nrIntFaces := (nrFaces0 mesh : Int) - nrExtFaces mesh
  nrExtFacesInGroups := 0

/-- The `Exception` raised at lines 213-215: it interpolates the offending
face's element id, its node list, and (only) the group currently being
processed (`'... One is : %s' % gr.GetName()`). -/
structure ConflictError where
  sfid : Nat
  fnodes : List Nat
  group : String
deriving DecidableEq

/-- Whether the exception message at lines 213-215 mentions the group
named `g`: the format string interpolates exactly one group name. -/
def errMentions (e : ConflictError) (g : String) : Prop := e.group = g

/-- Lines 205-215: register each group face under its canonical key,
failing on a key that is already registered. -/
def registerGroupFaces (mesh : Mesh) (gname : String) :
    List Nat → BState → Except ConflictError BState
  | [], st => .ok st
  | sfid :: rest, st =>
    let fnodes := elemNodes mesh sfid
    let key := Key fnodes
    if dictContains st.bcFacesSorted key then
      .error ⟨sfid, fnodes, gname⟩
    else
      registerGroupFaces mesh gname rest
        { st with bcFaces := st.bcFaces ++ [fnodes]
                  bcFacesSorted := dictInsert st.bcFacesSorted key st.ofbcfid
                  ofbcfid := st.ofbcfid + 1 }

/-- `__isGroupBaffle__` (lines 639-644): true iff some member id is not a
free face. -/
def isGroupBaffle (mesh : Mesh) (ids : List Nat) : Bool :=
  ids.any fun sid => !((extFacesD mesh).contains sid)

/-- Lines 226-231: the baffle re-registration of every group face under
its reversed key (no conflict check here; dict assignment overwrites). -/
def baffleRegister (mesh : Mesh) : List Nat → BState → BState
  | [], st => st
  | sfid :: rest, st =>
    let fnodes := elemNodes mesh sfid
    let key := ReverseKey fnodes
    baffleRegister mesh rest
      { st with bcFaces := st.bcFaces ++ [fnodes]
                bcFacesSorted := dictInsert st.bcFacesSorted key st.ofbcfid
                ofbcfid := st.ofbcfid + 1 }

/-- `grpNrFaces[-1] = nr*2` (line 225): Python assignment to the last slot. -/
def setLast : List Nat → Nat → List Nat
  | [], _ => []
  | [_], v => [v]
  | x :: y :: xs, v => x :: setLast (y :: xs) v

/-- One iteration of `for gr in mesh.GetGroups()` for a `FACE` group
(lines 193-233). -/
def processGroup (mesh : Mesh) (st : BState) (g : String × List Nat) :
    Except ConflictError BState :=
  let gname := g.1
  let grIds := g.2
  let nr := grIds.length
  let st := { st with grpNames := st.grpNames ++ [gname] }
  let st := if 0 < nr then
      { st with grpStartFace := st.grpStartFace ++ [st.nrIntFaces + st.ofbcfid]
                grpNrFaces := st.grpNrFaces ++ [nr] }
    else st
  match registerGroupFaces mesh gname grIds st with
  | .error e => .error e
  | .ok st =>
    if isGroupBaffle mesh grIds then
      let st := { st with nrBCfaces := st.nrBCfaces + nr
                          nrFaces := st.nrFaces + nr
                          nrIntFaces := st.nrIntFaces - nr
                          grpStartFace := st.grpStartFace.map (fun x => x - nr)
                          grpNrFaces := setLast st.grpNrFaces (nr * 2) }
      .ok (baffleRegister mesh grIds st)
    else
      .ok { st with nrExtFacesInGroups := st.nrExtFacesInGroups + nr }

/-- The whole group loop (lines 193-233). -/
def groupsFold (mesh : Mesh) : Except ConflictError BState :=
  mesh.groups.foldlM (processGroup mesh) (initBState mesh)

/-- The candidate names tried at lines 255-259: `defaultPatches`,
`defaultPatches_1`, `defaultPatches_2`, ... -/
def dpName : Nat → String
  | 0 => "defaultPatches"
  | Nat.succ n => "defaultPatches_" ++ toString (n + 1)

/-- The `while newGrpName in grpNames` loop (lines 255-259), fuelled; the
fuel `names.length + 1` always suffices (the candidates are distinct). -/
def freshNameAux (names : List String) : Nat → Nat → String
  | 0, nri => dpName nri
  | Nat.succ fuel, nri =>
    if dpName nri ∈ names then freshNameAux names fuel (nri + 1) else dpName nri

def freshName (names : List String) : String := freshNameAux names (names.length + 1) 0

/-- Lines 244-254: add every free face whose key is not yet registered. -/
def defaultPatchRegister (mesh : Mesh) : List Nat → BState → BState
  | [], st => st
  | face :: rest, st =>
    let fnodes := elemNodes mesh face
    let key := Key fnodes
    if dictContains st.bcFacesSorted key then
      defaultPatchRegister mesh rest st
    else
      defaultPatchRegister mesh rest
        { st with bcFaces := st.bcFaces ++ [fnodes]
                  bcFacesSorted := dictInsert st.bcFacesSorted key st.ofbcfid
                  ofbcfid := st.ofbcfid + 1 }

/-- Lines 238-268: synthesize the catch-all `defaultPatches` group when
the declared groups do not account for every free face. -/
def synthDefaultPatches (mesh : Mesh) (st : BState) : BState :=
  if st.nrExtFacesInGroups < nrExtFaces mesh then
    let st := { st with grpStartFace := st.grpStartFace ++ [st.nrIntFaces + st.ofbcfid]
                        grpNrFaces := st.grpNrFaces ++ [nrExtFaces mesh - st.nrExtFacesInGroups] }
    let st := defaultPatchRegister mesh (extFacesD mesh) st
    { st with grpNames := st.grpNames ++ [freshName st.grpNames] }
  else st

/-- The complete boundary phase of `exportToFoam` (lines 193-268). -/
def boundaryPass (mesh : Mesh) : Except ConflictError BState :=
  (groupsFold mesh).map (synthDefaultPatches mesh)

/-! ### The cell pass (lines 277-352) -/

/-- The state mutated by the volume loop. -/
structure CState where
  faces : List (List Nat)
  facesSorted : List (List Nat × Nat)
  owner : List Int
  neighbour : List Int
  bcFaces : List (List Nat)
  offid : Nat
deriving DecidableEq

/-- Lines 333-343: record a brand-new internal face (the `except KeyError`
branch).  Note line 340 re-reads the buffered key of the original node
order, so the registration key is `Key fnodes` even after a reversal. -/
def newInternalFace (mesh : Mesh) (ofvid : Int) (vnodes : List Nat)
    (st : CState) (fnodes : List Nat) : Except String CState := do
  let recorded := recordFnodes mesh.pts vnodes fnodes
  let key := Key fnodes
  let o ← pySet st.owner (st.offid : Int) ofvid
  .ok { st with faces := st.faces ++ [recorded]
                facesSorted := dictInsert st.facesSorted key st.offid
                owner := o
                offid := st.offid + 1 }

/-- Lines 300-349: classify one face of the current cell.  A failed dict
lookup models a `KeyError` (caught, continuing with the next branch); a
failed list access models an uncaught `IndexError` aborting the export.
The `KeyError` of the reversed-key lookup at line 328 is caught by the
`except KeyError` at line 332, falling into the new-internal-face branch. -/
def processFace (mesh : Mesh) (nrIntFaces : Int) (bcFacesSorted : List (List Nat × Nat))
    (ofvid : Int) (vnodes : List Nat) (st : CState) (fnodes : List Nat) :
    Except String CState :=
  let key := Key fnodes
  match dictLookup st.facesSorted key with
  | some fidinof => do
    let n ← pySet st.neighbour (fidinof : Int) ofvid
    .ok { st with neighbour := n }
  | none =>
    match dictLookup bcFacesSorted key with
    | some bcind => do
      let cur ← pyGet st.owner (nrIntFaces + bcind)
      if cur = -1 then do
        let o ← pySet st.owner (nrIntFaces + bcind) ofvid
        let bf ← pySet st.bcFaces (bcind : Int) fnodes
        .ok { st with owner := o, bcFaces := bf }
      else
        match dictLookup bcFacesSorted (ReverseKey fnodes) with
        | some bcind2 => do
          let bf ← pySet st.bcFaces (bcind2 : Int) fnodes
          let o ← pySet st.owner (nrIntFaces + bcind2) ofvid
          .ok { st with owner := o, bcFaces := bf }
        | none => newInternalFace mesh ofvid vnodes st fnodes
    | none => newInternalFace mesh ofvid vnodes st fnodes

/-- One iteration of `for b in buffers` (lines 292-351): loop over the
cell's faces, then advance the OpenFOAM volume id. -/
def processCell (mesh : Mesh) (nrIntFaces : Int) (bcFacesSorted : List (List Nat × Nat))
    (p : CState × Int) (cell : List Nat × List (List Nat)) :
    Except String (CState × Int) := do
  let st ← cell.2.foldlM (processFace mesh nrIntFaces bcFacesSorted p.2 cell.1) p.1
  .ok (st, p.2 + 1)

/-- Lines 277-352: initialise `owner`/`neighbour` (`[-1] * n`; a negative
`n` gives the empty list, as in Python) and run the volume loop. -/
def cellPass (mesh : Mesh) (bst : BState) : Except String CState := do
  let init : CState :=
    { faces := []
      facesSorted := []
      owner := List.replicate bst.nrFaces (-1)
      neighbour := List.replicate bst.nrIntFaces.toNat (-1)
      bcFaces := bst.bcFaces
      offid := 0 }
  let p ← (mesh.cellNodes.zip mesh.cellFaces).foldlM
    (processCell mesh bst.nrIntFaces bst.bcFacesSorted) (init, 0)
  .ok p.1

/-! ### The upper-triangular reorder pass (lines 375-399)

On Python 3 the source executes `sorted(inds, key=neighbour.__getitem__)`
and discards the returned list, so `inds` stays in its original order;
on Python 2 it executes `inds.sort(key=...)`, an in-place stable sort.
Both variants are embedded, selected by the `py3` flag. -/

/-- Stable insertion: an element is placed before the first strictly
how-larger-keyed element, keeping the original order among equal keys
(the semantics of Python's stable `list.sort`). -/
def stableInsertBy {α : Type} (key : α → Int) (x : α) : List α → List α
  | [] => [x]
  | y :: ys => if key x ≤ key y then x :: y :: ys else y :: stableInsertBy key x ys

/-- Stable sort by an integer key. -/
def stableSortBy {α : Type} (key : α → Int) : List α → List α
  | [] => []
  | x :: xs => stableInsertBy key x (stableSortBy key xs)

/-- `l[s : s + n]` (read). -/
def extractSlice {α : Type} (l : List α) (s n : Nat) : List α := (l.drop s).take n

/-- `l[s : s + len(v)] = v` (slice assignment for an in-range slice). -/
def writeSlice {α : Type} (l : List α) (s : Nat) (v : List α) : List α :=
  l.take s ++ v ++ l.drop (s + v.length)

/-- Lines 386-397: re-order the run `[sId, eId]`.  `inds` is sorted by
`neighbour.__getitem__` only on Python 2; on Python 3 the `sorted` call's
result is discarded, so the subsequent slice assignments rewrite the
slices with themselves. -/
def sortFacesSlice (py3 : Bool) (neighbour : List Int) (faces : List (List Nat))
    (sId eId : Nat) : List Int × List (List Nat) :=
  let inds := List.range' sId (eId + 1 - sId)
  let inds := if py3 then inds else stableSortBy (fun i => neighbour.getD i 0) inds
  (writeSlice neighbour sId (inds.map fun i => neighbour.getD i 0),
   writeSlice faces sId (inds.map fun i => faces.getD i []))

/-- The loop `for faceId in quickrange(0, nrIntFaces)` (lines 379-399),
with `remaining = nrIntFaces - faceId` as the structural fuel. -/
def utLoop (py3 : Bool) (owner : List Int) :
    Nat → Nat → Nat → List Int → List (List Nat) → List Int × List (List Nat)
  | 0, _, _, neighbour, faces => (neighbour, faces)
  | Nat.succ remaining, faceId, ownedfaces, neighbour, faces =>
    let cellId := owner.getD faceId 0
    let nextCellId := owner.getD (faceId + 1) 0
    if cellId = nextCellId then
      utLoop py3 owner remaining (faceId + 1) (ownedfaces + 1) neighbour faces
    else if 1 < ownedfaces then
      -- `sId = faceId - ownedfaces + 1`, reassociated so that the ℕ
      -- subtraction is exact (the loop keeps `ownedfaces ≤ faceId + 1`)
      let p := sortFacesSlice py3 neighbour faces (faceId + 1 - ownedfaces) faceId
      utLoop py3 owner remaining (faceId + 1) 1 p.1 p.2
    else
      utLoop py3 owner remaining (faceId + 1) 1 neighbour faces

/-- The complete upper-triangular reorder post-pass (lines 375-399). -/
def upperTriangularPass (py3 : Bool) (owner : List Int) (nrIntFaces : Nat)
    (neighbour : List Int) (faces : List (List Nat)) : List Int × List (List Nat) :=
  utLoop py3 owner nrIntFaces 0 1 neighbour faces

/-! ### The boundary file write (lines 456-468) -/

structure PatchEntry where
  name : String
  nFaces : Nat
  startFace : Int
deriving DecidableEq

/-- The `for ind, gname in enumerate(grpNames)` loop (lines 460-466):
each iteration indexes `grpNrFaces[ind]` and `grpStartFace[ind]`. -/
def writeBoundaryAux (counts : List Nat) (starts : List Int) :
    Nat → List String → Except String (List PatchEntry)
  | _, [] => .ok []
  | ind, gname :: rest => do
    let n ← pyGet counts (ind : Int)
    let s ← pyGet starts (ind : Int)
    let tail ← writeBoundaryAux counts starts (ind + 1) rest
    .ok (⟨gname, n, s⟩ :: tail)

/-- Lines 459-467: the boundary file's payload — the declared patch count
(`len(grpStartFace)`) and the per-patch entries. -/
def writeBoundary (st : BState) : Except String (Nat × List PatchEntry) := do
  let entries ← writeBoundaryAux st.grpNrFaces st.grpStartFace 0 st.grpNames
  .ok (st.grpStartFace.length, entries)

/-! ### The whole export -/

inductive ExportError where
  | conflict : ConflictError → ExportError
  | runtime : String → ExportError
deriving DecidableEq

/-- What an export produces in memory (the payloads of the files written
at lines 402-468): internal faces and bc faces, owner, neighbour, and the
boundary table.  Any error aborts before any of it is produced. -/
structure FoamData where
  faces : List (List Nat)
  bcFaces : List (List Nat)
  owner : List Int
  neighbour : List Int
  patchCount : Nat
  patches : List PatchEntry
deriving DecidableEq

/-- `exportToFoam` end to end: boundary pass, cell pass, upper-triangular
reorder (Python 3 path), file payloads. -/
def exportToFoam (mesh : Mesh) : Except ExportError FoamData := do
  let bst ← (boundaryPass mesh).mapError ExportError.conflict
  let cst ← (cellPass mesh bst).mapError ExportError.runtime
  let ut := upperTriangularPass true cst.owner bst.nrIntFaces.toNat cst.neighbour cst.faces
  let bnd ← (writeBoundary bst).mapError ExportError.runtime
  .ok ⟨ut.2, cst.bcFaces, cst.owner, ut.1, bnd.1, bnd.2⟩

/-! ### Concrete meshes used to evaluate the passes -/

/-- A single tetrahedron: 4 nodes, 4 free triangular faces, no declared
groups. -/
def tetMesh : Mesh where
  faceElems := [(1, [1,2,3]), (2, [1,2,4]), (3, [1,3,4]), (4, [2,3,4])]
  groups := []
  extFaces := [1,2,3,4]
  cellNodes := [[1,2,3,4]]
  cellFaces := [[[1,2,3],[1,2,4],[1,3,4],[2,3,4]]]
  pts := fun _ => ⟨0,0,0⟩

/-- A single hexahedron whose quad face `1` (nodes 1-4) is declared as a
group; all 6 faces are geometric free faces. -/
def hexMesh : Mesh where
  faceElems := [(1, [1,2,3,4]), (2, [5,6,7,8]), (3, [1,2,6,5]),
                (4, [2,3,7,6]), (5, [3,4,8,7]), (6, [4,1,5,8])]
  groups := [("baf", [1])]
  extFaces := [1,2,3,4,5,6]
  cellNodes := [[1,2,3,4,5,6,7,8]]
  cellFaces := [[[1,2,3,4],[5,6,7,8],[1,2,6,5],[2,3,7,6],[3,4,8,7],[4,1,5,8]]]
  pts := fun _ => ⟨0,0,0⟩

/-- Two face elements with the same node set claimed by two different
groups. -/
def conflictMesh : Mesh where
  faceElems := [(1, [1,2,3]), (2, [3,2,1])]
  groups := [("g1", [1]), ("g2", [2])]
  extFaces := [1,2]
  cellNodes := []
  cellFaces := []
  pts := fun _ => ⟨0,0,0⟩

/-- A mesh whose single declared group is a baffle (member 11 is not a
free face) that also claims the only free face 10.  The declared groups
then cover the whole geometric boundary set, yet the catch-all group is
still synthesized. -/
def c6Mesh : Mesh where
  faceElems := [(10, [1,2,3]), (11, [4,5,6])]
  groups := [("g", [10, 11])]
  extFaces := [10]
  cellNodes := [[1,2,3,4,5,6]]
  cellFaces := [[[1,2,3],[4,5,6],[1,2,4]]]
  pts := fun _ => ⟨0,0,0⟩

/-- Node coordinates of a twisted (non-planar) quad face (nodes 1-4) and
a two-node "cell" (nodes 5-6); all chosen so that IEEE double arithmetic
in the source is exact. -/
def qpts : Nat → V3
  | 1 => ⟨0,0,0⟩
  | 2 => ⟨1,0,0⟩
  | 3 => ⟨1,1,4⟩
  | 4 => ⟨0,1,0⟩
  | 5 => ⟨1,0,2⟩
  | 6 => ⟨2,1,2⟩
  | _ => ⟨0,0,0⟩

/-- The ids claimed by the declared face groups. -/
def claimedIDs (mesh : Mesh) : List Nat := (mesh.groups.map Prod.snd).flatten

/-- "The union of faces claimed by the declared boundary groups is a
strict subset of the geometric boundary-face set". -/
def claimedStrictSubset (mesh : Mesh) : Prop :=
  (claimedIDs mesh).toFinset ⊂ (extFacesD mesh).toFinset

/-- Member count of the groups of `gs` that are not classified as baffles
(the quantity the source accumulates in `nrExtFacesInGroups`). -/
def nonBaffleSumOf (mesh : Mesh) (gs : List (String × List Nat)) : Nat :=
  ((gs.filter fun g => !(isGroupBaffle mesh g.2)).map fun g => g.2.length).sum

/-- Member count of the groups of `gs` that are classified as baffles. -/
def baffleSumOf (mesh : Mesh) (gs : List (String × List Nat)) : Nat :=
  ((gs.filter fun g => isGroupBaffle mesh g.2).map fun g => g.2.length).sum

/-- Total member count of the declared non-baffle groups. -/
def nonBaffleMemberCount (mesh : Mesh) : Nat := nonBaffleSumOf mesh mesh.groups

/-- Total member count of the declared baffle groups. -/
def baffleMemberCount (mesh : Mesh) : Nat := baffleSumOf mesh mesh.groups

/-- The state just after group `g1` of `conflictMesh` has been processed. -/
def c3Pre : BState :=
  { initBState conflictMesh with
      bcFaces := [[1,2,3]]
      bcFacesSorted := [([1,2,3], 0)]
      ofbcfid := 1 }

/-- A mesh whose single group is a baffle (face 1 is not a free face). -/
def baffleMesh : Mesh where
  faceElems := [(1, [1,2,3])]
  groups := [("b1", [1])]
  extFaces := []
  cellNodes := []
  cellFaces := []
  pts := fun _ => ⟨0,0,0⟩

/-- The state after processing the baffle group of `baffleMesh`. -/
def b4St : BState :=
  ((processGroup baffleMesh (initBState baffleMesh) ("b1", [1])).toOption).getD
    (initBState baffleMesh)

/-- The boundary-pass result on `tetMesh`. -/
def tetB : BState := ((boundaryPass tetMesh).toOption).getD (initBState tetMesh)

/-- The cell-pass result on `tetMesh`. -/
def tetC : CState := ((cellPass tetMesh tetB).toOption).getD ⟨[], [], [], [], [], 0⟩

/-- Start offsets of contiguous ranges with the given sizes: the chain
`[base, base + c₀, base + c₀ + c₁, …]`. -/
def chainStarts (base : Int) : List Nat → List Int
  | [] => []
  | c :: cs => base :: chainStarts (base + c) cs

/-- The canonical keys of the geometric free faces. -/
def extKeyFinset (mesh : Mesh) : Finset (List Nat) :=
  ((extFacesD mesh).toFinset).image fun f => Key (elemNodes mesh f)

/-- How many free-face keys are registered in the boundary-face dict. -/
def regCount (mesh : Mesh) (st : BState) : Nat :=
  ((extKeyFinset mesh).filter fun k => dictContains st.bcFacesSorted k = true).card

/-- The invariant of the boundary-group loop: the recorded start offsets
chain the recorded sizes from `nrIntFaces` on, `ofbcfid` equals the size
sum, the face-count balance, and the registered-free-face-key bound. -/
structure GInv (mesh : Mesh) (st : BState) : Prop where
  chain : st.grpStartFace = chainStarts st.nrIntFaces st.grpNrFaces
  ofb : st.ofbcfid = st.grpNrFaces.sum
  balance : (st.nrFaces : Int) - st.nrIntFaces - (st.grpNrFaces.sum : Int)
    = (nrExtFaces mesh : Int) - (st.nrExtFacesInGroups : Int)
  reg : st.nrExtFacesInGroups ≤ regCount mesh st

/-- Decimal digit value of the characters `Nat.digitChar` emits for
digits below 10. -/
def parseDigit (c : Char) : Nat := c.toNat - 48

/-- Parse a decimal digit string back into the number it denotes. -/
def parseNat (l : List Char) : Nat := l.foldl (fun a c => 10 * a + parseDigit c) 0

/-- "The owner/neighbour arrays are already in upper-triangular order":
within every run of equal owners, consecutive neighbour entries are
non-decreasing. -/
def utOrdered (owner neighbour : List Int) (nrIntFaces : Nat) : Prop :=
  ∀ i, i + 1 < nrIntFaces → owner.getD i 0 = owner.getD (i + 1) 0 →
    neighbour.getD i 0 ≤ neighbour.getD (i + 1) 0

/-- A mesh declaring a face group with zero member faces (plus one
ordinary group covering the single free face). -/
def emptyGrpMesh : Mesh where
  faceElems := [(1, [1,2,3])]
  groups := [("empty", []), ("g", [1])]
  extFaces := [1]
  cellNodes := [[1,2,3,4]]
  cellFaces := [[[1,2,3]]]
  pts := fun _ => ⟨0,0,0⟩

/-- The group-fold result on `c6Mesh`. -/
def c6St : BState := ((groupsFold c6Mesh).toOption).getD (initBState c6Mesh)

/-- The boundary-pass result on `emptyGrpMesh`. -/
def emptyGrpSt : BState :=
  ((boundaryPass emptyGrpMesh).toOption).getD (initBState emptyGrpMesh)

/-! ### C1: the upper-triangular reorder on the live (Python 3) path -/

/-- C1 (code bug): on the Python 3 path the source discards the result of
`sorted(inds, key=neighbour.__getitem__)` (line 392), so the run
`owner = [0,0]`, `neighbour = [15,3]` is left unsorted — neither the
neighbour entries nor the face node lists are permuted — while the Python 2
path (`inds.sort`, line 394) produces the ordering the code's own comment
(lines 366-374) documents. -/
theorem ut_py3_sort_discarded :
    upperTriangularPass true [0,0,1] 2 [15,3] [[1],[2]] = ([15,3], [[1],[2]]) ∧
    upperTriangularPass false [0,0,1] 2 [15,3] [[1],[2]] = ([3,15], [[2],[1]]) ∧
    ¬((15 : Int) ≤ 3) := by
  refine ⟨rfl, rfl, by decide⟩

/-! ### C8: orientation of recorded internal faces -/

/-- C8 (counterexample): for the twisted quad face `[1,2,3,4]` of `qpts`
the orientation test fails (dot product `1 > 0`), the node order is duly
reversed before recording, but the recorded list `[4,3,2,1]` still yields
a normal whose dot product with (cellCentroid − faceCentroid) is `3 > 0`:
the claim's "≤ 0" conclusion is false for non-planar faces of 4 nodes. -/
theorem record_quad_counterexample :
    recordFnodes qpts [5,6] [1,2,3,4] = [4,3,2,1] ∧
    dotprod (calcNormal qpts [1,2,3,4])
      (diff (cog qpts [5,6]) (cog qpts [1,2,3,4])) = 1 ∧
    ¬(dotprod (calcNormal qpts [4,3,2,1])
        (diff (cog qpts [5,6]) (cog qpts [4,3,2,1])) ≤ 0) := by
  refine ⟨?_, ?_, ?_⟩ <;>
    norm_num [recordFnodes, verify, verifyFaceOrder, calcNormal, cog,
      crossprod, diff, dotprod, qpts]

/-! ### C3: a face claimed by two groups -/

/-- C3 (counterexample): on `conflictMesh` the boundary pass raises the
group-conflict error for face 2 of group `g2`, but the exception message
(lines 213-215) interpolates only the current group's name: it does not
mention `g1`, the group that first claimed the face, so the claim that the
error names both groups is false. -/
theorem conflict_error_names_one_group :
    boundaryPass conflictMesh = .error ⟨2, [3,2,1], "g2"⟩ ∧
    ¬ errMentions ⟨2, [3,2,1], "g2"⟩ "g1" := by
  refine ⟨rfl, by unfold errMentions; decide⟩

/-! ### C5: the single-hex "baffle" scenario -/

/-- C5 (counterexample): on `hexMesh` — a single hexahedral cell with one
of its quad faces declared as a group over those 4 nodes — the group's
face is a geometric free face, so `__isGroupBaffle__` does not classify
the group as a baffle and its face count is reported as 1, not 2. -/
theorem hex_group_count_is_one :
    (boundaryPass hexMesh).map (fun st => st.grpNrFaces.getD 0 0) = .ok 1 ∧
    (1 : Nat) ≠ 2 := by
  refine ⟨rfl, by decide⟩

/-- C5 (amended): for the single-hexahedron mesh the declared group is not
classified as a baffle (its member is a free face), its face count is
recorded as 1 with the synthesized catch-all group covering the other 5
faces, exactly 6 boundary-face entries exist (one per quad), and the cell
pass records the single cell (id 0) as the owner of every one of them. -/
theorem hex_single_face_group :
    isGroupBaffle hexMesh [1] = false ∧
    (boundaryPass hexMesh).map
      (fun st => (st.grpNrFaces, st.grpNames, st.bcFaces.length)) =
      .ok ([1, 5], ["baf", "defaultPatches"], 6) ∧
    (boundaryPass hexMesh).map
      (fun st => (cellPass hexMesh st).map fun c => c.owner) =
      .ok (.ok [0, 0, 0, 0, 0, 0]) := by
  refine ⟨rfl, rfl, rfl⟩

/-! ### C6: when the catch-all group is synthesized -/

/-- C6 (counterexample): on `c6Mesh` the declared groups claim both faces
10 and 11, a superset of the free-face set `{10}` — not a strict subset —
yet `defaultPatches` is still synthesized, because the source compares
only the member count of non-baffle groups (`nrExtFacesInGroups`, which
stays 0 for the baffle group) against `nrExtFaces`. -/
theorem synth_without_strict_subset :
    (boundaryPass c6Mesh).map (fun st => st.grpNames) =
      .ok ["g", "defaultPatches"] ∧
    ¬ claimedStrictSubset c6Mesh := by
  refine ⟨rfl, by unfold claimedStrictSubset; decide⟩

/-! ### Dictionary and helper lemmas -/

theorem dictContains_dictInsert {κ α : Type} [DecidableEq κ]
    (d : List (κ × α)) (k k' : κ) (v : α) :
    dictContains (dictInsert d k v) k' = (dictContains d k' || decide (k' = k)) := by
  unfold dictInsert
  by_cases h : dictContains d k = true
  · simp only [h, if_true]
    unfold dictContains
    rw [List.any_map]
    by_cases hk : k' = k
    · subst hk
      simp only [decide_True, Bool.or_true]
      unfold dictContains at h
      rw [List.any_eq_true] at h
      obtain ⟨p, hp, hpk⟩ := h
      rw [List.any_eq_true]
      refine ⟨p, hp, ?_⟩
      simp only [Function.comp]
      simp only [decide_eq_true_eq] at hpk ⊢
      simp [hpk]
    · simp only [decide_eq_false hk, Bool.or_false]
      congr 1
      funext p
      simp only [Function.comp]
      by_cases hpk : p.1 = k
      · simp [hpk]
      · simp [hpk]
  · rw [Bool.not_eq_true] at h
    simp only [h, Bool.false_eq_true, if_false]
    unfold dictContains
    rw [List.any_append]
    simp [eq_comm]

theorem setLast_append_singleton {v w : Nat} :
    ∀ (l : List Nat), setLast (l ++ [v]) w = l ++ [w] := by
  intro l
  induction l with
  | nil => rfl
  | cons x xs ih =>
    cases xs with
    | nil => rfl
    | cons y ys => simpa [setLast] using ih

/-- What a successful group registration (lines 205-215) does to the
state: it appends the groups' node lists to `bcFaces`, advances the
boundary-face id by the member count, leaves every other field unchanged,
and only grows the key dict. -/
theorem registerGroupFaces_ok (mesh : Mesh) (gname : String) :
    ∀ (ids : List Nat) (st st' : BState),
      registerGroupFaces mesh gname ids st = .ok st' →
      st'.bcFaces = st.bcFaces ++ ids.map (elemNodes mesh) ∧
      st'.ofbcfid = st.ofbcfid + ids.length ∧
      st'.grpStartFace = st.grpStartFace ∧
      st'.grpNrFaces = st.grpNrFaces ∧
      st'.grpNames = st.grpNames ∧
      st'.nrBCfaces = st.nrBCfaces ∧
      st'.nrFaces = st.nrFaces ∧
      st'.nrIntFaces = st.nrIntFaces ∧
      st'.nrExtFacesInGroups = st.nrExtFacesInGroups ∧
      (∀ k, dictContains st.bcFacesSorted k = true →
        dictContains st'.bcFacesSorted k = true) := by
  intro ids
  induction ids with
  | nil =>
    intro st st' h
    simp only [registerGroupFaces] at h
    cases h
    simp
  | cons sfid rest ih =>
    intro st st' h
    simp only [registerGroupFaces] at h
    by_cases hc : dictContains st.bcFacesSorted (Key (elemNodes mesh sfid)) = true
    · rw [if_pos hc] at h; cases h
    · rw [Bool.not_eq_true] at hc
      rw [hc] at h
      simp only [Bool.false_eq_true, if_false] at h
      obtain ⟨h1, h2, h3, h4, h5, h6, h7, h8, h9, h10⟩ := ih _ _ h
      refine ⟨?_, ?_, h3, h4, h5, h6, h7, h8, h9, ?_⟩
      · simpa using h1
      · simp at h2 ⊢; omega
      · intro k hk
        apply h10
        simp only [dictContains_dictInsert]
        rw [hk]; rfl

/-- What the baffle re-registration (lines 226-231) does to the state:
a second copy of each node list goes to `bcFaces`, the boundary-face id
advances by the member count, the reversed key of every member is
registered, and the group bookkeeping fields are untouched. -/
theorem baffleRegister_spec (mesh : Mesh) :
    ∀ (ids : List Nat) (st : BState),
      (baffleRegister mesh ids st).bcFaces = st.bcFaces ++ ids.map (elemNodes mesh) ∧
      (baffleRegister mesh ids st).ofbcfid = st.ofbcfid + ids.length ∧
      (baffleRegister mesh ids st).grpStartFace = st.grpStartFace ∧
      (baffleRegister mesh ids st).grpNrFaces = st.grpNrFaces ∧
      (baffleRegister mesh ids st).grpNames = st.grpNames ∧
      (baffleRegister mesh ids st).nrBCfaces = st.nrBCfaces ∧
      (baffleRegister mesh ids st).nrFaces = st.nrFaces ∧
      (baffleRegister mesh ids st).nrIntFaces = st.nrIntFaces ∧
      (baffleRegister mesh ids st).nrExtFacesInGroups = st.nrExtFacesInGroups ∧
      (∀ k, dictContains st.bcFacesSorted k = true →
        dictContains (baffleRegister mesh ids st).bcFacesSorted k = true) ∧
      (∀ sfid ∈ ids, dictContains (baffleRegister mesh ids st).bcFacesSorted
        (ReverseKey (elemNodes mesh sfid)) = true) := by
  intro ids
  induction ids with
  | nil => intro st; simp [baffleRegister]
  | cons sfid rest ih =>
    intro st
    simp only [baffleRegister]
    obtain ⟨h1, h2, h3, h4, h5, h6, h7, h8, h9, h10, h11⟩ := ih
      { st with bcFaces := st.bcFaces ++ [elemNodes mesh sfid]
                bcFacesSorted := dictInsert st.bcFacesSorted (ReverseKey (elemNodes mesh sfid)) st.ofbcfid
                ofbcfid := st.ofbcfid + 1 }
    refine ⟨by simpa using h1, by simp at h2 ⊢; omega, h3, h4, h5, h6, h7, h8, h9, ?_, ?_⟩
    · intro k hk
      apply h10
      simp only [dictContains_dictInsert]
      rw [hk]; rfl
    · intro s hs
      rcases List.mem_cons.mp hs with hh | ht
      · subst hh
        apply h10
        simp [dictContains_dictInsert]
      · exact h11 s ht

/-! ### C3 (amended) and its witness -/

/-- C3 (amended): when a group member's canonical key is already
registered, the registration loop raises the conflict error naming the
offending face and the group currently being processed (only that one of
the two groups involved), and any boundary-pass error aborts the whole
export before any output is produced. -/
theorem group_conflict_aborts :
    (∀ (mesh : Mesh) (gname : String) (sfid : Nat) (rest : List Nat) (st : BState),
      dictContains st.bcFacesSorted (Key (elemNodes mesh sfid)) = true →
      registerGroupFaces mesh gname (sfid :: rest) st =
        .error ⟨sfid, elemNodes mesh sfid, gname⟩ ∧
      errMentions ⟨sfid, elemNodes mesh sfid, gname⟩ gname) ∧
    (∀ (mesh : Mesh) (e : ConflictError),
      boundaryPass mesh = .error e → exportToFoam mesh = .error (.conflict e)) := by
  constructor
  · intro mesh gname sfid rest st h
    refine ⟨?_, rfl⟩
    simp [registerGroupFaces, h]
  · intro mesh e h
    simp [exportToFoam, h, Except.mapError, bind, Except.bind]

/-- C3 (witness): the amended theorem applied to `conflictMesh`, whose
second group claims a face whose key group `g1` already registered. -/
theorem group_conflict_aborts_w :
    registerGroupFaces conflictMesh "g2" [2] c3Pre =
      .error ⟨2, [3,2,1], "g2"⟩ ∧
    exportToFoam conflictMesh = .error (.conflict ⟨2, [3,2,1], "g2"⟩) :=
  ⟨(group_conflict_aborts.1 conflictMesh "g2" 2 [] c3Pre rfl).1,
   group_conflict_aborts.2 conflictMesh _ rfl⟩

/-! ### C4 and its witness -/

/-- C4: for a group classified as a baffle, `exportToFoam` records the
group's face count as exactly twice its member count, shifts every start
offset computed so far (including this group's own) down by the member
count, appends each member's node list a second time as an independent
boundary-face entry, and registers each member's reversed key. -/
theorem baffle_group_doubles (mesh : Mesh) (st st' : BState) (gname : String) (ids : List Nat)
    (hb : isGroupBaffle mesh ids = true)
    (h : processGroup mesh st (gname, ids) = .ok st') :
    st'.grpNrFaces = st.grpNrFaces ++ [ids.length * 2] ∧
    st'.grpStartFace = (st.grpStartFace ++ [st.nrIntFaces + st.ofbcfid]).map
      (fun x => x - (ids.length : Int)) ∧
    st'.bcFaces = st.bcFaces ++ ids.map (elemNodes mesh) ++ ids.map (elemNodes mesh) ∧
    st'.ofbcfid = st.ofbcfid + ids.length + ids.length ∧
    (∀ sfid ∈ ids, dictContains st'.bcFacesSorted (ReverseKey (elemNodes mesh sfid)) = true) := by
  have hne : ids ≠ [] := by
    intro he; subst he; simp [isGroupBaffle] at hb
  have hnr : 0 < ids.length := List.length_pos.mpr hne
  simp only [processGroup] at h
  rw [if_pos hnr] at h
  cases hr : registerGroupFaces mesh gname ids
      { st with grpNames := st.grpNames ++ [gname]
                grpStartFace := st.grpStartFace ++ [st.nrIntFaces + st.ofbcfid]
                grpNrFaces := st.grpNrFaces ++ [ids.length] } with
  | error e => rw [hr] at h; cases h
  | ok st1 =>
    rw [hr] at h
    simp only [hb, if_true] at h
    obtain ⟨r1, r2, r3, r4, r5, r6, r7, r8, r9, r10⟩ :=
      registerGroupFaces_ok mesh gname ids _ st1 hr
    simp only at r1 r2 r3 r4 r5 r6 r7 r8 r9
    obtain ⟨b1, b2, b3, b4, b5, b6, b7, b8, b9, b10, b11⟩ :=
      baffleRegister_spec mesh ids
        { st1 with nrBCfaces := st1.nrBCfaces + ids.length
                   nrFaces := st1.nrFaces + ids.length
                   nrIntFaces := st1.nrIntFaces - ids.length
                   grpStartFace := st1.grpStartFace.map (fun x => x - (ids.length : Int))
                   grpNrFaces := setLast st1.grpNrFaces (ids.length * 2) }
    rw [Except.ok.injEq] at h
    subst h
    refine ⟨?_, ?_, ?_, ?_, ?_⟩
    · rw [b4]; simp only; rw [r4, setLast_append_singleton]
    · rw [b3]; simp only; rw [r3]
    · rw [b1]; simp only; rw [r1]
    · rw [b2]; simp only; rw [r2]
    · exact b11

/-- C4 (witness): the baffle theorem applied to the one-face baffle group
of `baffleMesh`. -/
theorem baffle_group_doubles_w :
    b4St.grpNrFaces = [2] ∧ b4St.grpStartFace = [-1] ∧
    b4St.bcFaces = [[1,2,3], [1,2,3]] ∧ b4St.ofbcfid = 2 ∧
    dictContains b4St.bcFacesSorted (ReverseKey (elemNodes baffleMesh 1)) = true := by
  obtain ⟨h1, h2, h3, h4, h5⟩ :=
    baffle_group_doubles baffleMesh (initBState baffleMesh) b4St "b1" [1] rfl rfl
  refine ⟨?_, ?_, ?_, ?_, h5 1 (by decide)⟩
  · rw [h1]; decide
  · rw [h2]; decide
  · rw [h3]; decide
  · rw [h4]; decide


/-! ### C8 (amended), the group-step characterization, and C2 -/

/-- C8 (amended): whenever the dot product of a new internal face's
normal with the vector from face centroid to cell centroid is positive,
the node order is reversed before recording; for triangular faces the
recorded node list then yields a normal whose dot product with
(cellCentroid − faceCentroid) is ≤ 0 (for faces of four or more nodes
the recomputed normal can still have a positive dot product, see the
counterexample). -/
theorem verify_reverses_inward_faces :
    (∀ (pts : Nat → V3) (vnodes fnodes : List Nat),
      0 < dotprod (calcNormal pts fnodes) (diff (cog pts vnodes) (cog pts fnodes)) →
      recordFnodes pts vnodes fnodes = fnodes.reverse) ∧
    (∀ (pts : Nat → V3) (vnodes : List Nat) (a b c : Nat),
      0 < dotprod (calcNormal pts [a,b,c]) (diff (cog pts vnodes) (cog pts [a,b,c])) →
      dotprod (calcNormal pts (recordFnodes pts vnodes [a,b,c]))
        (diff (cog pts vnodes) (cog pts (recordFnodes pts vnodes [a,b,c]))) ≤ 0) := by
  have hfalse : ∀ (pts : Nat → V3) (vnodes fnodes : List Nat),
      0 < dotprod (calcNormal pts fnodes) (diff (cog pts vnodes) (cog pts fnodes)) →
      verifyFaceOrder pts vnodes fnodes = false := by
    intro pts vnodes fnodes h
    simp only [verifyFaceOrder]
    rw [if_pos h]
  have hrev : ∀ (pts : Nat → V3) (vnodes fnodes : List Nat),
      0 < dotprod (calcNormal pts fnodes) (diff (cog pts vnodes) (cog pts fnodes)) →
      recordFnodes pts vnodes fnodes = fnodes.reverse := by
    intro pts vnodes fnodes h
    simp [recordFnodes, verify, hfalse pts vnodes fnodes h]
  refine ⟨hrev, ?_⟩
  intro pts vnodes a b c h
  rw [hrev pts vnodes [a,b,c] h]
  have hrl : ([a,b,c] : List Nat).reverse = [c,b,a] := rfl
  rw [hrl]
  have hvext : ∀ u v : V3, u.x = v.x → u.y = v.y → u.z = v.z → u = v := by
    intro u v h1 h2 h3; cases u; cases v; simp_all
  have hcog : cog pts [c,b,a] = cog pts [a,b,c] := by
    apply hvext <;> simp [cog] <;> ring
  rw [hcog]
  have e1 : calcNormal pts [c,b,a] =
      crossprod (diff (pts b) (pts c)) (diff (pts a) (pts c)) := rfl
  have e2 : calcNormal pts [a,b,c] =
      crossprod (diff (pts b) (pts a)) (diff (pts c) (pts a)) := rfl
  have key : ∀ (P Q R D : V3),
      dotprod (crossprod (diff Q R) (diff P R)) D =
      - dotprod (crossprod (diff Q P) (diff R P)) D := by
    intro P Q R D
    simp only [crossprod, diff, dotprod]
    ring
  rw [e1, key (pts a) (pts b) (pts c), ← e2] at *
  rw [e2] at h
  linarith


/-- C8 (witness): the amended theorem applied to the triangle face `[1,2,4]` of `qpts`, whose outward test fails. -/
theorem verify_reverses_inward_faces_w :
    recordFnodes qpts [5,6] [1,2,4] = [4,2,1] ∧
    dotprod (calcNormal qpts (recordFnodes qpts [5,6] [1,2,4]))
      (diff (cog qpts [5,6]) (cog qpts (recordFnodes qpts [5,6] [1,2,4]))) ≤ 0 := by
  have h : 0 < dotprod (calcNormal qpts [1,2,4])
      (diff (cog qpts [5,6]) (cog qpts [1,2,4])) := by
    norm_num [calcNormal, cog, crossprod, diff, dotprod, qpts]
  exact ⟨by rw [verify_reverses_inward_faces.1 qpts [5,6] [1,2,4] h]; rfl,
    verify_reverses_inward_faces.2 qpts [5,6] 1 2 4 h⟩

/-- One group iteration, fully characterized on success. -/
theorem processGroup_step (mesh : Mesh) (st : BState) (g : String × List Nat) (st' : BState)
    (h : processGroup mesh st g = .ok st') :
    st'.nrFaces = (if isGroupBaffle mesh g.2 then st.nrFaces + g.2.length else st.nrFaces) ∧
    st'.nrIntFaces = (if isGroupBaffle mesh g.2 then st.nrIntFaces - g.2.length else st.nrIntFaces) ∧
    st'.nrExtFacesInGroups = (if isGroupBaffle mesh g.2 then st.nrExtFacesInGroups
      else st.nrExtFacesInGroups + g.2.length) ∧
    st'.grpNames = st.grpNames ++ [g.1] ∧
    st'.grpNrFaces = (if isGroupBaffle mesh g.2 then st.grpNrFaces ++ [g.2.length * 2]
      else if 0 < g.2.length then st.grpNrFaces ++ [g.2.length] else st.grpNrFaces) ∧
    st'.grpStartFace = (if isGroupBaffle mesh g.2 then
        (st.grpStartFace ++ [st.nrIntFaces + st.ofbcfid]).map (fun x => x - (g.2.length : Int))
      else if 0 < g.2.length then st.grpStartFace ++ [st.nrIntFaces + st.ofbcfid]
      else st.grpStartFace) ∧
    st'.ofbcfid = st.ofbcfid + (if isGroupBaffle mesh g.2 then 2 * g.2.length else g.2.length) ∧
    (∀ k, dictContains st.bcFacesSorted k = true →
      dictContains st'.bcFacesSorted k = true) := by
  by_cases hb : isGroupBaffle mesh g.2 = true
  · have hne : g.2 ≠ [] := by
      intro he; rw [he] at hb; simp [isGroupBaffle] at hb
    have hnr : 0 < g.2.length := List.length_pos.mpr hne
    simp only [processGroup] at h
    rw [if_pos hnr] at h
    cases hr : registerGroupFaces mesh g.1 g.2
        { st with grpNames := st.grpNames ++ [g.1]
                  grpStartFace := st.grpStartFace ++ [st.nrIntFaces + st.ofbcfid]
                  grpNrFaces := st.grpNrFaces ++ [g.2.length] } with
    | error e => rw [hr] at h; cases h
    | ok st1 =>
      rw [hr] at h
      simp only [hb, if_true] at h
      obtain ⟨r1, r2, r3, r4, r5, r6, r7, r8, r9, r10⟩ :=
        registerGroupFaces_ok mesh g.1 g.2 _ st1 hr
      simp only at r1 r2 r3 r4 r5 r6 r7 r8 r9
      obtain ⟨b1, b2, b3, b4, b5, b6, b7, b8, b9, b10, b11⟩ :=
        baffleRegister_spec mesh g.2
          { st1 with nrBCfaces := st1.nrBCfaces + g.2.length
                     nrFaces := st1.nrFaces + g.2.length
                     nrIntFaces := st1.nrIntFaces - g.2.length
                     grpStartFace := st1.grpStartFace.map (fun x => x - (g.2.length : Int))
                     grpNrFaces := setLast st1.grpNrFaces (g.2.length * 2) }
      rw [Except.ok.injEq] at h
      subst h
      simp only [hb, if_true]
      refine ⟨?_, ?_, ?_, ?_, ?_, ?_, ?_, ?_⟩
      · rw [b7]; simp only; rw [r7]
      · rw [b8]; simp only; rw [r8]
      · rw [b9]; simp only; rw [r9]
      · rw [b5]; simp only; rw [r5]
      · rw [b4]; simp only; rw [r4, setLast_append_singleton]
      · rw [b3]; simp only; rw [r3]
      · rw [b2]; simp only; rw [r2]; omega
      · intro k hk
        exact b10 k (r10 k hk)
  · rw [Bool.not_eq_true] at hb
    simp only [processGroup] at h
    by_cases hn : 0 < g.2.length
    · rw [if_pos hn] at h
      cases hr : registerGroupFaces mesh g.1 g.2
          { st with grpNames := st.grpNames ++ [g.1]
                    grpStartFace := st.grpStartFace ++ [st.nrIntFaces + st.ofbcfid]
                    grpNrFaces := st.grpNrFaces ++ [g.2.length] } with
      | error e => rw [hr] at h; cases h
      | ok st1 =>
        rw [hr] at h
        simp only [hb, Bool.false_eq_true, if_false] at h
        obtain ⟨r1, r2, r3, r4, r5, r6, r7, r8, r9, r10⟩ :=
          registerGroupFaces_ok mesh g.1 g.2 _ st1 hr
        simp only at r1 r2 r3 r4 r5 r6 r7 r8 r9
        rw [Except.ok.injEq] at h
        subst h
        simp only [hb, Bool.false_eq_true, if_false, if_pos hn]
        exact ⟨r7, r8, by simp [r9], by simp [r5], by simp [r4], by simp [r3],
          by simp [r2], fun k hk => r10 k hk⟩
    · rw [if_neg hn] at h
      have hgnil : g.2 = [] := List.length_eq_zero.mp (Nat.eq_zero_of_not_pos hn)
      rw [hgnil] at h
      simp only [registerGroupFaces] at h
      rw [hgnil] at hb
      simp only [hb, Bool.false_eq_true, if_false] at h
      rw [Except.ok.injEq] at h
      subst h
      simp only [hgnil, hb, Bool.false_eq_true, if_false, if_neg hn]
      simp [hgnil] at hn ⊢


theorem except_bind_ok {ε α β : Type} (x : Except ε α) (f : α → Except ε β) (b : β)
    (h : (x >>= f) = .ok b) : ∃ a, x = .ok a ∧ f a = .ok b := by
  cases x with
  | error e => simp [Bind.bind, Except.bind] at h
  | ok a => exact ⟨a, rfl, by simpa [Bind.bind, Except.bind] using h⟩

theorem foldlM_except_inv {σ α ε : Type} (f : σ → α → Except ε σ) (P : σ → Prop)
    (hstep : ∀ s a s', P s → f s a = .ok s' → P s') :
    ∀ (l : List α) (s s' : σ), P s → l.foldlM f s = .ok s' → P s' := by
  intro l
  induction l with
  | nil =>
    intro s s' hP h
    simp only [List.foldlM_nil] at h
    cases h
    exact hP
  | cons a l ih =>
    intro s s' hP h
    rw [List.foldlM_cons] at h
    obtain ⟨s1, hs1, h⟩ := except_bind_ok _ _ _ h
    exact ih s1 s' (hstep s a s1 hP hs1) h

theorem baffleSumOf_cons (mesh : Mesh) (g : String × List Nat) (gs : List (String × List Nat)) :
    baffleSumOf mesh (g :: gs) =
      (if isGroupBaffle mesh g.2 then g.2.length else 0) + baffleSumOf mesh gs := by
  unfold baffleSumOf
  by_cases hb : isGroupBaffle mesh g.2 = true
  · simp [List.filter_cons, hb]
  · rw [Bool.not_eq_true] at hb
    simp [List.filter_cons, hb]

theorem nonBaffleSumOf_cons (mesh : Mesh) (g : String × List Nat) (gs : List (String × List Nat)) :
    nonBaffleSumOf mesh (g :: gs) =
      (if isGroupBaffle mesh g.2 then 0 else g.2.length) + nonBaffleSumOf mesh gs := by
  unfold nonBaffleSumOf
  by_cases hb : isGroupBaffle mesh g.2 = true
  · simp [List.filter_cons, hb]
  · rw [Bool.not_eq_true] at hb
    simp [List.filter_cons, hb]

theorem groupsFold_counts (mesh : Mesh) :
    ∀ (gs : List (String × List Nat)) (st0 st : BState),
      gs.foldlM (processGroup mesh) st0 = .ok st →
      st.nrFaces = st0.nrFaces + baffleSumOf mesh gs ∧
      st.nrIntFaces = st0.nrIntFaces - (baffleSumOf mesh gs : Int) ∧
      st.nrExtFacesInGroups = st0.nrExtFacesInGroups + nonBaffleSumOf mesh gs := by
  intro gs
  induction gs with
  | nil =>
    intro st0 st h
    simp only [List.foldlM_nil] at h
    cases h
    simp [baffleSumOf, nonBaffleSumOf]
  | cons g gs ih =>
    intro st0 st h
    rw [List.foldlM_cons] at h
    obtain ⟨st1, hs1, h⟩ := except_bind_ok _ _ _ h
    obtain ⟨c1, c2, c3, _⟩ := processGroup_step mesh st0 g st1 hs1
    obtain ⟨d1, d2, d3⟩ := ih st1 st h
    rw [baffleSumOf_cons, nonBaffleSumOf_cons]
    by_cases hb : isGroupBaffle mesh g.2 = true
    · rw [if_pos hb] at c1 c2 c3 ⊢
      rw [if_pos hb]
      refine ⟨by omega, by rw [d2, c2]; push_cast; ring, by omega⟩
    · rw [Bool.not_eq_true] at hb
      simp only [hb, Bool.false_eq_true, if_false] at c1 c2 c3 ⊢
      refine ⟨by omega, by rw [d2, c2]; push_cast; ring, by omega⟩

theorem defaultPatchRegister_fields (mesh : Mesh) :
    ∀ (faces : List Nat) (st : BState),
      (defaultPatchRegister mesh faces st).grpStartFace = st.grpStartFace ∧
      (defaultPatchRegister mesh faces st).grpNrFaces = st.grpNrFaces ∧
      (defaultPatchRegister mesh faces st).grpNames = st.grpNames ∧
      (defaultPatchRegister mesh faces st).nrFaces = st.nrFaces ∧
      (defaultPatchRegister mesh faces st).nrIntFaces = st.nrIntFaces ∧
      (defaultPatchRegister mesh faces st).nrExtFacesInGroups = st.nrExtFacesInGroups := by
  intro faces
  induction faces with
  | nil => intro st; simp [defaultPatchRegister]
  | cons f fs ih =>
    intro st
    simp only [defaultPatchRegister]
    by_cases hc : dictContains st.bcFacesSorted (Key (elemNodes mesh f)) = true
    · rw [if_pos hc]; exact ih st
    · rw [Bool.not_eq_true] at hc
      rw [hc]
      simp only [Bool.false_eq_true, if_false]
      exact ih _

theorem synth_counts (mesh : Mesh) (st : BState) :
    (synthDefaultPatches mesh st).nrFaces = st.nrFaces ∧
    (synthDefaultPatches mesh st).nrIntFaces = st.nrIntFaces ∧
    (synthDefaultPatches mesh st).nrExtFacesInGroups = st.nrExtFacesInGroups := by
  unfold synthDefaultPatches
  by_cases hc : st.nrExtFacesInGroups < nrExtFaces mesh
  · rw [if_pos hc]
    obtain ⟨f1, f2, f3, f4, f5, f6⟩ := defaultPatchRegister_fields mesh (extFacesD mesh)
      { st with grpStartFace := st.grpStartFace ++ [st.nrIntFaces + st.ofbcfid]
                grpNrFaces := st.grpNrFaces ++ [nrExtFaces mesh - st.nrExtFacesInGroups] }
    simp only [f4, f5, f6]
    simp
  · rw [if_neg hc]
    exact ⟨rfl, rfl, rfl⟩


theorem pySet_ok_length {α : Type} (l : List α) (i : Int) (v : α) (l' : List α)
    (h : pySet l i v = .ok l') : l'.length = l.length := by
  unfold pySet at h
  cases hj : pyIdx l.length i with
  | none => rw [hj] at h; cases h
  | some j =>
    rw [hj] at h
    cases h
    exact List.length_set l j v

theorem newInternalFace_lengths (mesh : Mesh) (ofvid : Int) (vnodes : List Nat)
    (st : CState) (fnodes : List Nat) (st' : CState)
    (h : newInternalFace mesh ofvid vnodes st fnodes = .ok st') :
    st'.owner.length = st.owner.length ∧ st'.neighbour.length = st.neighbour.length := by
  simp only [newInternalFace] at h
  obtain ⟨o, ho, h⟩ := except_bind_ok _ _ _ h
  rw [Except.ok.injEq] at h
  subst h
  exact ⟨pySet_ok_length _ _ _ _ ho, rfl⟩

theorem processFace_lengths (mesh : Mesh) (nrIntFaces : Int)
    (bcFS : List (List Nat × Nat)) (ofvid : Int) (vnodes : List Nat)
    (st : CState) (fnodes : List Nat) (st' : CState)
    (h : processFace mesh nrIntFaces bcFS ofvid vnodes st fnodes = .ok st') :
    st'.owner.length = st.owner.length ∧ st'.neighbour.length = st.neighbour.length := by
  simp only [processFace] at h
  cases h1 : dictLookup st.facesSorted (Key fnodes) with
  | some fid =>
    rw [h1] at h
    obtain ⟨n, hn, h⟩ := except_bind_ok _ _ _ h
    rw [Except.ok.injEq] at h
    subst h
    exact ⟨rfl, pySet_ok_length _ _ _ _ hn⟩
  | none =>
    rw [h1] at h
    cases h2 : dictLookup bcFS (Key fnodes) with
    | none =>
      rw [h2] at h
      exact newInternalFace_lengths mesh ofvid vnodes st fnodes st' h
    | some bcind =>
      rw [h2] at h
      obtain ⟨cur, hcur, h⟩ := except_bind_ok _ _ _ h
      by_cases hm : cur = -1
      · rw [if_pos hm] at h
        obtain ⟨o, ho, h⟩ := except_bind_ok _ _ _ h
        obtain ⟨bf, hbf, h⟩ := except_bind_ok _ _ _ h
        rw [Except.ok.injEq] at h
        subst h
        exact ⟨pySet_ok_length _ _ _ _ ho, rfl⟩
      · rw [if_neg hm] at h
        cases h3 : dictLookup bcFS (ReverseKey fnodes) with
        | none =>
          rw [h3] at h
          exact newInternalFace_lengths mesh ofvid vnodes st fnodes st' h
        | some bcind2 =>
          rw [h3] at h
          obtain ⟨bf, hbf, h⟩ := except_bind_ok _ _ _ h
          obtain ⟨o, ho, h⟩ := except_bind_ok _ _ _ h
          rw [Except.ok.injEq] at h
          subst h
          exact ⟨pySet_ok_length _ _ _ _ ho, rfl⟩

theorem cellPass_lengths (mesh : Mesh) (bst : BState) (cst : CState)
    (h : cellPass mesh bst = .ok cst) :
    cst.owner.length = bst.nrFaces ∧ cst.neighbour.length = bst.nrIntFaces.toNat := by
  unfold cellPass at h
  obtain ⟨p, hp, h⟩ := except_bind_ok _ _ _ h
  rw [Except.ok.injEq] at h
  subst h
  have base :
      (fun q : CState × Int => q.1.owner.length = bst.nrFaces ∧
        q.1.neighbour.length = bst.nrIntFaces.toNat)
      ({ faces := []
         facesSorted := []
         owner := List.replicate bst.nrFaces (-1)
         neighbour := List.replicate bst.nrIntFaces.toNat (-1)
         bcFaces := bst.bcFaces
         offid := 0 }, (0 : Int)) := by
    constructor
    · exact List.length_replicate _ _
    · exact List.length_replicate _ _
  refine (foldlM_except_inv (processCell mesh bst.nrIntFaces bst.bcFacesSorted)
    (fun q : CState × Int => q.1.owner.length = bst.nrFaces ∧
      q.1.neighbour.length = bst.nrIntFaces.toNat) ?_ _ _ _ base hp)
  intro s a s' hP hstep
  unfold processCell at hstep
  obtain ⟨c, hc, hstep⟩ := except_bind_ok _ _ _ hstep
  rw [Except.ok.injEq] at hstep
  subst hstep
  have inner := foldlM_except_inv
    (processFace mesh bst.nrIntFaces bst.bcFacesSorted s.2 a.1)
    (fun c : CState => c.owner.length = bst.nrFaces ∧
      c.neighbour.length = bst.nrIntFaces.toNat) ?_ a.2 s.1 c hP hc
  · exact inner
  · intro u b u' hu hub
    obtain ⟨e1, e2⟩ := processFace_lengths mesh bst.nrIntFaces bst.bcFacesSorted s.2 a.1 u b u' hub
    exact ⟨e1.trans hu.1, e2.trans hu.2⟩


/-- C2: after the cell pass the owner array has length `nrFaces` and the
neighbour array length `nrIntFaces`, where `nrFaces` is (sum of per-cell
face counts + number of boundary faces) / 2 and `nrIntFaces` is `nrFaces`
minus the number of boundary faces, the boundary count being the
free-face count plus twice the baffle-group member count (each baffle
face yields two boundary entries). -/
theorem owner_neighbour_lengths (mesh : Mesh) (bst : BState) (cst : CState)
    (hb : boundaryPass mesh = .ok bst) (hc : cellPass mesh bst = .ok cst) :
    cst.owner.length = bst.nrFaces ∧
    cst.neighbour.length = bst.nrIntFaces.toNat ∧
    bst.nrFaces = (sumFL mesh + (nrExtFaces mesh + 2 * baffleMemberCount mesh)) / 2 ∧
    bst.nrIntFaces = (bst.nrFaces : Int) -
      ((nrExtFaces mesh : Int) + 2 * (baffleMemberCount mesh : Int)) := by
  obtain ⟨l1, l2⟩ := cellPass_lengths mesh bst cst hc
  unfold boundaryPass at hb
  cases hg : groupsFold mesh with
  | error e => rw [hg] at hb; simp [Except.map] at hb
  | ok st =>
    rw [hg] at hb
    simp only [Except.map] at hb
    rw [Except.ok.injEq] at hb
    subst hb
    have hgf : mesh.groups.foldlM (processGroup mesh) (initBState mesh) = .ok st := hg
    obtain ⟨d1, d2, d3⟩ := groupsFold_counts mesh mesh.groups (initBState mesh) st hgf
    obtain ⟨s1, s2, s3⟩ := synth_counts mesh st
    refine ⟨l1, l2, ?_, ?_⟩
    · rw [s1, d1]
      simp only [initBState]
      unfold baffleMemberCount nrFaces0
      omega
    · rw [s2, s1, d2, d1]
      simp only [initBState]
      unfold baffleMemberCount nrFaces0
      push_cast
      ring

/-- C2 (witness): the length theorem applied to `tetMesh`. -/
theorem owner_neighbour_lengths_w :
    tetC.owner.length = tetB.nrFaces ∧
    tetC.neighbour.length = tetB.nrIntFaces.toNat ∧
    tetB.nrFaces = (sumFL tetMesh + (nrExtFaces tetMesh + 2 * baffleMemberCount tetMesh)) / 2 ∧
    tetB.nrIntFaces = (tetB.nrFaces : Int) -
      ((nrExtFaces tetMesh : Int) + 2 * (baffleMemberCount tetMesh : Int)) :=
  owner_neighbour_lengths tetMesh tetB tetC rfl rfl



/-! ### C6: fresh-name machinery and the amended synthesis theorem -/

theorem parseDigit_digitChar : ∀ d : Nat, d < 10 → parseDigit (Nat.digitChar d) = d := by
  decide

theorem toDigitsCore_parse :
    ∀ (fuel n : Nat) (ds : List Char), n < fuel →
      ∃ digs, Nat.toDigitsCore 10 fuel n ds = digs ++ ds ∧ parseNat digs = n ∧ digs ≠ [] := by
  intro fuel
  induction fuel with
  | zero => intro n ds h; omega
  | succ fuel ih =>
    intro n ds h
    simp only [Nat.toDigitsCore]
    by_cases h0 : n / 10 = 0
    · rw [if_pos h0]
      refine ⟨[Nat.digitChar (n % 10)], rfl, ?_, by simp⟩
      unfold parseNat
      simp only [List.foldl_cons, List.foldl_nil, Nat.mul_zero, Nat.zero_add]
      rw [parseDigit_digitChar (n % 10) (Nat.mod_lt n (by norm_num))]
      omega
    · rw [if_neg h0]
      have hn10 : n / 10 < fuel := by omega
      obtain ⟨digs, hd, hp, hne⟩ := ih (n / 10) (Nat.digitChar (n % 10) :: ds) hn10
      refine ⟨digs ++ [Nat.digitChar (n % 10)], by rw [hd]; simp, ?_, by simp⟩
      unfold parseNat at hp ⊢
      rw [List.foldl_append]
      rw [hp]
      simp only [List.foldl_cons, List.foldl_nil]
      rw [parseDigit_digitChar (n % 10) (Nat.mod_lt n (by norm_num))]
      omega

theorem parse_toDigits (n : Nat) :
    parseNat (Nat.toDigits 10 n) = n ∧ Nat.toDigits 10 n ≠ [] := by
  unfold Nat.toDigits
  obtain ⟨digs, hd, hp, hne⟩ := toDigitsCore_parse (n+1) n [] (Nat.lt_succ_self n)
  rw [hd]
  simpa using ⟨hp, hne⟩

theorem natRepr_injective : Function.Injective Nat.repr := by
  intro n m h
  unfold Nat.repr at h
  have hdata : Nat.toDigits 10 n = Nat.toDigits 10 m := by
    have := congrArg String.data h
    simpa [List.asString] using this
  have h1 := (parse_toDigits n).1
  have h2 := (parse_toDigits m).1
  rw [← h1, ← h2, hdata]

theorem natRepr_ne_empty (n : Nat) : Nat.repr n ≠ "" := by
  intro h
  have := congrArg String.data h
  simp only [Nat.repr] at this
  rw [List.asString] at this
  exact (parse_toDigits n).2 this

theorem dpName_injective : Function.Injective dpName := by
  have hlen : ∀ j : Nat, dpName 0 ≠ dpName (j + 1) := by
    intro j h
    have hd := congrArg String.data h
    simp only [dpName] at hd
    rw [String.data_append] at hd
    have hlen := congrArg List.length hd
    rw [List.length_append] at hlen
    have h15 : ("defaultPatches_".data).length = 15 := by decide
    have h14 : ("defaultPatches".data).length = 14 := by decide
    rw [h15] at hlen
    rw [h14] at hlen
    omega
  intro i j h
  match i, j with
  | 0, 0 => rfl
  | 0, Nat.succ j => exact absurd h (hlen j)
  | Nat.succ i, 0 => exact absurd h.symm (hlen i)
  | Nat.succ i, Nat.succ j =>
    simp only [dpName] at h
    have hd := congrArg String.data h
    rw [String.data_append, String.data_append] at hd
    have hcancel := List.append_cancel_left hd
    have hstr : toString (i + 1) = toString (j + 1) := String.ext hcancel
    have := natRepr_injective hstr
    omega

theorem freshNameAux_spec (names : List String) :
    ∀ (fuel nri : Nat),
      ((Finset.range fuel).filter fun j => dpName (nri + j) ∈ names).card < fuel →
      ∃ k, freshNameAux names fuel nri = dpName (nri + k) ∧
        dpName (nri + k) ∉ names ∧ ∀ j < k, dpName (nri + j) ∈ names := by
  intro fuel
  induction fuel with
  | zero => intro nri h; exact absurd h (Nat.not_lt_zero _)
  | succ fuel ih =>
    intro nri h
    simp only [freshNameAux]
    by_cases hm : dpName nri ∈ names
    · rw [if_pos hm]
      have hcard : ((Finset.range fuel).filter fun j => dpName (nri + 1 + j) ∈ names).card
          < fuel := by
        set S := (Finset.range (fuel + 1)).filter (fun j => dpName (nri + j) ∈ names) with hSdef
        set T := (Finset.range fuel).filter (fun j => dpName (nri + 1 + j) ∈ names) with hTdef
        have h0 : (0 : Nat) ∈ S := by
          rw [hSdef]
          simp [Finset.mem_filter, hm]
        have himg : T.image (fun j => j + 1) ⊆ S.erase 0 := by
          intro x hx
          obtain ⟨j, hj, rfl⟩ := Finset.mem_image.mp hx
          rw [hTdef] at hj
          obtain ⟨hjr, hjm⟩ := Finset.mem_filter.mp hj
          rw [hSdef]
          rw [Finset.mem_erase]
          refine ⟨by omega, Finset.mem_filter.mpr ⟨Finset.mem_range.mpr ?_, ?_⟩⟩
          · exact Nat.succ_lt_succ (Finset.mem_range.mp hjr)
          · have : nri + (j + 1) = nri + 1 + j := by omega
            rw [this]
            exact hjm
        have hcard1 := Finset.card_le_card himg
        rw [Finset.card_image_of_injective _ (add_left_injective 1)] at hcard1
        have hcard2 := Finset.card_erase_of_mem h0
        have hpos := Finset.card_pos.mpr ⟨0, h0⟩
        omega
      obtain ⟨k, h1, h2, h3⟩ := ih (nri + 1) hcard
      have harr : nri + 1 + k = nri + (k + 1) := by omega
      rw [harr] at h1 h2
      refine ⟨k + 1, h1, h2, ?_⟩
      intro j hj
      cases j with
      | zero => simpa using hm
      | succ j' =>
        have hj' := h3 j' (by omega)
        have : nri + 1 + j' = nri + (j' + 1) := by omega
        rw [this] at hj'
        exact hj'
    · rw [if_neg hm]
      exact ⟨0, by rw [Nat.add_zero], by simpa using hm, by omega⟩

theorem freshName_spec (names : List String) :
    freshName names ∉ names ∧
    ∃ k, freshName names = dpName k ∧ ∀ j < k, dpName j ∈ names := by
  have hcard : ((Finset.range (names.length + 1)).filter
      fun j => dpName (0 + j) ∈ names).card < names.length + 1 := by
    by_contra hc
    push_neg at hc
    have hsub0 : (Finset.range (names.length + 1)).filter (fun j => dpName (0 + j) ∈ names) ⊆
        Finset.range (names.length + 1) := Finset.filter_subset _ _
    have heq := Finset.eq_of_subset_of_card_le hsub0 (by simpa using hc)
    have hall : ∀ j < names.length + 1, dpName j ∈ names := by
      intro j hj
      have hmem : j ∈ Finset.range (names.length + 1) := Finset.mem_range.mpr hj
      rw [← heq] at hmem
      simpa using (Finset.mem_filter.mp hmem).2
    have hinj : ((Finset.range (names.length + 1)).image dpName).card = names.length + 1 := by
      rw [Finset.card_image_of_injective _ dpName_injective, Finset.card_range]
    have hsub : (Finset.range (names.length + 1)).image dpName ⊆ names.toFinset := by
      intro s hs
      obtain ⟨j, hj, rfl⟩ := Finset.mem_image.mp hs
      exact List.mem_toFinset.mpr (hall j (Finset.mem_range.mp hj))
    have hle := Finset.card_le_card hsub
    rw [hinj] at hle
    have htl := names.toFinset_card_le
    omega
  obtain ⟨k, h1, h2, h3⟩ := freshNameAux_spec names (names.length + 1) 0 hcard
  simp only [Nat.zero_add] at h1 h2 h3
  refine ⟨?_, k, ?_, h3⟩
  · unfold freshName
    rw [h1]
    exact h2
  · unfold freshName
    exact h1


/-- C6 (amended): the catch-all group is synthesized if and only if the
total member count of the non-baffle declared groups is smaller than the
number of geometric free faces (with baffle groups, this differs from
"the claimed faces are a strict subset of the free-face set"); the
synthesized group's name is fresh: `defaultPatches`, or `defaultPatches_n`
for the smallest n whose every predecessor candidate collides with an
existing group name. -/
theorem default_patches_iff (mesh : Mesh) (st : BState)
    (hg : groupsFold mesh = .ok st) :
    boundaryPass mesh = .ok (synthDefaultPatches mesh st) ∧
    ((synthDefaultPatches mesh st).grpNames = st.grpNames ++ [freshName st.grpNames] ↔
      nonBaffleMemberCount mesh < nrExtFaces mesh) ∧
    ((synthDefaultPatches mesh st).grpNames = st.grpNames ↔
      ¬(nonBaffleMemberCount mesh < nrExtFaces mesh)) ∧
    freshName st.grpNames ∉ st.grpNames ∧
    (∃ k, freshName st.grpNames = dpName k ∧ ∀ j < k, dpName j ∈ st.grpNames) := by
  have hbp : boundaryPass mesh = .ok (synthDefaultPatches mesh st) := by
    unfold boundaryPass
    rw [hg]
    rfl
  obtain ⟨_, _, d3⟩ := groupsFold_counts mesh mesh.groups (initBState mesh) st hg
  have hext : st.nrExtFacesInGroups = nonBaffleMemberCount mesh := by
    rw [d3]
    simp only [initBState]
    rw [Nat.zero_add]
    rfl
  have hnames : (synthDefaultPatches mesh st).grpNames =
      (if st.nrExtFacesInGroups < nrExtFaces mesh then
        st.grpNames ++ [freshName st.grpNames] else st.grpNames) := by
    unfold synthDefaultPatches
    by_cases hc : st.nrExtFacesInGroups < nrExtFaces mesh
    · rw [if_pos hc, if_pos hc]
      obtain ⟨f1, f2, f3, f4, f5, f6⟩ := defaultPatchRegister_fields mesh (extFacesD mesh)
        { st with grpStartFace := st.grpStartFace ++ [st.nrIntFaces + st.ofbcfid]
                  grpNrFaces := st.grpNrFaces ++ [nrExtFaces mesh - st.nrExtFacesInGroups] }
      simp only [f3]
    · rw [if_neg hc, if_neg hc]
  refine ⟨hbp, ?_, ?_, (freshName_spec st.grpNames).1, (freshName_spec st.grpNames).2⟩
  · rw [hnames, hext]
    by_cases hc : nonBaffleMemberCount mesh < nrExtFaces mesh
    · simp [hc]
    · simp [hc]
  · rw [hnames, hext]
    by_cases hc : nonBaffleMemberCount mesh < nrExtFaces mesh
    · simp [hc]
    · simp [hc]

/-- C6 (witness): the synthesis theorem applied to `c6Mesh`. -/
theorem default_patches_iff_w :
    boundaryPass c6Mesh = .ok (synthDefaultPatches c6Mesh c6St) ∧
    (synthDefaultPatches c6Mesh c6St).grpNames = c6St.grpNames ++ [freshName c6St.grpNames] ∧
    freshName c6St.grpNames ∉ c6St.grpNames := by
  obtain ⟨h1, h2, h3, h4, h5⟩ := default_patches_iff c6Mesh c6St rfl
  exact ⟨h1, h2.mpr (by decide), h4⟩


/-! ### C7: the boundary ranges tile the boundary interval -/

theorem chainStarts_append :
    ∀ (cs : List Nat) (base : Int) (c : Nat),
      chainStarts base (cs ++ [c]) = chainStarts base cs ++ [base + cs.sum] := by
  intro cs
  induction cs with
  | nil => intro base c; simp [chainStarts]
  | cons x xs ih =>
    intro base c
    show base :: chainStarts (base + (x : Int)) (xs ++ [c]) =
      base :: (chainStarts (base + (x : Int)) xs ++ [base + (((x :: xs).sum : Nat) : Int)])
    rw [ih]
    congr 3
    push_cast [List.map_cons, List.sum_cons]
    ring

theorem chainStarts_map_sub (n : Nat) :
    ∀ (cs : List Nat) (base : Int),
      (chainStarts base cs).map (fun x => x - (n : Int)) = chainStarts (base - n) cs := by
  intro cs
  induction cs with
  | nil => intro base; simp [chainStarts]
  | cons x xs ih =>
    intro base
    simp only [chainStarts, List.map_cons, ih]
    congr 1
    congr 1
    ring

theorem not_baffle_mem (mesh : Mesh) (ids : List Nat)
    (h : isGroupBaffle mesh ids = false) : ∀ sfid ∈ ids, sfid ∈ extFacesD mesh := by
  intro sfid hs
  unfold isGroupBaffle at h
  rw [List.any_eq_false] at h
  have := h sfid hs
  simpa using this

theorem regCount_mono (mesh : Mesh) (st st' : BState)
    (h : ∀ k, dictContains st.bcFacesSorted k = true →
      dictContains st'.bcFacesSorted k = true) :
    regCount mesh st ≤ regCount mesh st' := by
  unfold regCount
  apply Finset.card_le_card
  intro k hk
  rw [Finset.mem_filter] at hk ⊢
  exact ⟨hk.1, h k hk.2⟩

theorem regCount_le_nrExt (mesh : Mesh) (st : BState) :
    regCount mesh st ≤ nrExtFaces mesh := by
  unfold regCount nrExtFaces
  calc ((extKeyFinset mesh).filter fun k => dictContains st.bcFacesSorted k = true).card
      ≤ (extKeyFinset mesh).card := Finset.card_filter_le _ _
    _ ≤ (extFacesD mesh).toFinset.card := Finset.card_image_le
    _ = (extFacesD mesh).length := by
        unfold extFacesD
        rw [List.toFinset_card_of_nodup (List.nodup_dedup _)]

theorem registerGroupFaces_regCount (mesh : Mesh) (gname : String) :
    ∀ (ids : List Nat) (st st' : BState),
      (∀ sfid ∈ ids, sfid ∈ extFacesD mesh) →
      registerGroupFaces mesh gname ids st = .ok st' →
      regCount mesh st + ids.length ≤ regCount mesh st' := by
  intro ids
  induction ids with
  | nil =>
    intro st st' _ h
    simp only [registerGroupFaces] at h
    cases h
    simp
  | cons sfid rest ih =>
    intro st st' hmem h
    simp only [registerGroupFaces] at h
    by_cases hc : dictContains st.bcFacesSorted (Key (elemNodes mesh sfid)) = true
    · rw [if_pos hc] at h; cases h
    · rw [Bool.not_eq_true] at hc
      rw [hc] at h
      simp only [Bool.false_eq_true, if_false] at h
      have hstep : regCount mesh st + 1 ≤ regCount mesh
          { st with bcFaces := st.bcFaces ++ [elemNodes mesh sfid]
                    bcFacesSorted := dictInsert st.bcFacesSorted
                      (Key (elemNodes mesh sfid)) st.ofbcfid
                    ofbcfid := st.ofbcfid + 1 } := by
        unfold regCount
        have hkey : Key (elemNodes mesh sfid) ∈ extKeyFinset mesh := by
          unfold extKeyFinset
          exact Finset.mem_image.mpr
            ⟨sfid, List.mem_toFinset.mpr (hmem sfid (by simp)), rfl⟩
        have hnot : Key (elemNodes mesh sfid) ∉
            (extKeyFinset mesh).filter
              (fun k => dictContains st.bcFacesSorted k = true) := by
          rw [Finset.mem_filter]
          rintro ⟨_, hcc⟩
          rw [hc] at hcc
          cases hcc
        have hsub : insert (Key (elemNodes mesh sfid))
            ((extKeyFinset mesh).filter fun k => dictContains st.bcFacesSorted k = true) ⊆
            (extKeyFinset mesh).filter fun k =>
              dictContains (dictInsert st.bcFacesSorted
                (Key (elemNodes mesh sfid)) st.ofbcfid) k = true := by
          intro k hk
          rw [Finset.mem_insert] at hk
          rw [Finset.mem_filter]
          rcases hk with rfl | hk
          · exact ⟨hkey, by rw [dictContains_dictInsert]; simp⟩
          · rw [Finset.mem_filter] at hk
            exact ⟨hk.1, by rw [dictContains_dictInsert, hk.2]; rfl⟩
        have hcard := Finset.card_le_card hsub
        rw [Finset.card_insert_of_not_mem hnot] at hcard
        simpa using hcard
      have hrest := ih _ st' (fun s hs => hmem s (by simp [hs])) h
      simp only [List.length_cons]
      omega

theorem processGroup_reg (mesh : Mesh) (st : BState) (g : String × List Nat) (st' : BState)
    (hreg : st.nrExtFacesInGroups ≤ regCount mesh st)
    (h : processGroup mesh st g = .ok st') :
    st'.nrExtFacesInGroups ≤ regCount mesh st' := by
  by_cases hb : isGroupBaffle mesh g.2 = true
  · obtain ⟨_, _, c3, _, _, _, _, cdict⟩ := processGroup_step mesh st g st' h
    rw [if_pos hb] at c3
    rw [c3]
    exact le_trans hreg (regCount_mono mesh st st' cdict)
  · rw [Bool.not_eq_true] at hb
    simp only [processGroup] at h
    by_cases hn : 0 < g.2.length
    · rw [if_pos hn] at h
      cases hr : registerGroupFaces mesh g.1 g.2
          { st with grpNames := st.grpNames ++ [g.1]
                    grpStartFace := st.grpStartFace ++ [st.nrIntFaces + st.ofbcfid]
                    grpNrFaces := st.grpNrFaces ++ [g.2.length] } with
      | error e => rw [hr] at h; cases h
      | ok st1 =>
        rw [hr] at h
        simp only [hb, Bool.false_eq_true, if_false] at h
        rw [Except.ok.injEq] at h
        subst h
        obtain ⟨_, _, _, _, _, _, _, _, r9, _⟩ :=
          registerGroupFaces_ok mesh g.1 g.2 _ st1 hr
        simp only at r9
        have hmem := not_baffle_mem mesh g.2 hb
        have hrc := registerGroupFaces_regCount mesh g.1 g.2 _ st1 hmem hr
        have hpre : regCount mesh
            { st with grpNames := st.grpNames ++ [g.1]
                      grpStartFace := st.grpStartFace ++ [st.nrIntFaces + st.ofbcfid]
                      grpNrFaces := st.grpNrFaces ++ [g.2.length] } = regCount mesh st := rfl
        rw [hpre] at hrc
        have hfin : regCount mesh { st1 with
            nrExtFacesInGroups := st1.nrExtFacesInGroups + g.2.length } =
            regCount mesh st1 := rfl
        rw [hfin]
        simp only [r9]
        omega
    · rw [if_neg hn] at h
      have hgnil : g.2 = [] := List.length_eq_zero.mp (Nat.eq_zero_of_not_pos hn)
      rw [hgnil] at h
      simp only [registerGroupFaces] at h
      rw [hgnil] at hb
      simp only [hb, Bool.false_eq_true, if_false] at h
      rw [Except.ok.injEq] at h
      subst h
      simpa [hgnil] using hreg


theorem processGroup_ginv (mesh : Mesh) (st : BState) (g : String × List Nat) (st' : BState)
    (hI : GInv mesh st) (h : processGroup mesh st g = .ok st') : GInv mesh st' := by
  obtain ⟨c1, c2, c3, c4, c5, c6, c7, c8⟩ := processGroup_step mesh st g st' h
  have hreg := processGroup_reg mesh st g st' hI.reg h
  by_cases hb : isGroupBaffle mesh g.2 = true
  · simp only [hb, if_true] at c1 c2 c3 c5 c6 c7
    refine ⟨?_, ?_, ?_, hreg⟩
    · rw [c6, c5, c2, hI.chain, hI.ofb]
      rw [chainStarts_append, List.map_append, chainStarts_map_sub]
      simp only [List.map_cons, List.map_nil]
      congr 2
      push_cast
      ring
    · rw [c7, c5, hI.ofb]
      simp only [List.sum_append, List.sum_cons, List.sum_nil]
      omega
    · rw [c1, c2, c3, c5]
      have hbal := hI.balance
      push_cast [List.sum_append, List.sum_cons, List.sum_nil] at hbal ⊢
      omega
  · rw [Bool.not_eq_true] at hb
    simp only [hb, Bool.false_eq_true, if_false] at c1 c2 c3 c5 c6 c7
    by_cases hn : 0 < g.2.length
    · rw [if_pos hn] at c5 c6
      refine ⟨?_, ?_, ?_, hreg⟩
      · rw [c6, c5, c2, hI.chain, hI.ofb, chainStarts_append]
      · rw [c7, c5, hI.ofb]
        simp only [List.sum_append, List.sum_cons, List.sum_nil]
        omega
      · rw [c1, c2, c3, c5]
        have hbal := hI.balance
        push_cast [List.sum_append, List.sum_cons, List.sum_nil] at hbal ⊢
        omega
    · rw [if_neg hn] at c5 c6
      have hz : g.2.length = 0 := Nat.eq_zero_of_not_pos hn
      refine ⟨?_, ?_, ?_, hreg⟩
      · rw [c6, c5, c2, hI.chain]
      · rw [c7, c5, hI.ofb, hz]
        omega
      · rw [c1, c2, c3, c5, hz]
        have hbal := hI.balance
        push_cast at hbal ⊢
        omega

theorem ginv_init (mesh : Mesh) : GInv mesh (initBState mesh) := by
  refine ⟨rfl, rfl, ?_, ?_⟩
  · simp only [initBState, List.sum_nil]
    push_cast
    ring
  · simp [initBState]

/-- C7: on every successful export the boundary-group ranges, taken in
declaration order with the synthesized catch-all group last, start at
`nrIntFaces`, chain contiguously (each startFace is the previous start
plus the previous nFaces), and their sizes add up to exactly
`nrFaces - nrIntFaces`: they tile `[nrIntFaces, nrFaces)` with no gaps or
overlaps. -/
theorem boundary_ranges_tile (mesh : Mesh) (st : BState)
    (h : boundaryPass mesh = .ok st) :
    st.grpStartFace = chainStarts st.nrIntFaces st.grpNrFaces ∧
    st.nrIntFaces + (st.grpNrFaces.sum : Int) = (st.nrFaces : Int) := by
  unfold boundaryPass at h
  cases hg : groupsFold mesh with
  | error e => rw [hg] at h; simp [Except.map] at h
  | ok st0 =>
    rw [hg] at h
    simp only [Except.map] at h
    rw [Except.ok.injEq] at h
    subst h
    have hI := foldlM_except_inv (processGroup mesh) (GInv mesh)
      (fun s a s' hP hf => processGroup_ginv mesh s a s' hP hf)
      mesh.groups (initBState mesh) st0 (ginv_init mesh) hg
    unfold synthDefaultPatches
    by_cases hc : st0.nrExtFacesInGroups < nrExtFaces mesh
    · rw [if_pos hc]
      obtain ⟨f1, f2, f3, f4, f5, f6⟩ := defaultPatchRegister_fields mesh (extFacesD mesh)
        { st0 with grpStartFace := st0.grpStartFace ++ [st0.nrIntFaces + st0.ofbcfid]
                   grpNrFaces := st0.grpNrFaces ++ [nrExtFaces mesh - st0.nrExtFacesInGroups] }
      constructor
      · show (defaultPatchRegister mesh (extFacesD mesh) _).grpStartFace =
          chainStarts (defaultPatchRegister mesh (extFacesD mesh) _).nrIntFaces
            (defaultPatchRegister mesh (extFacesD mesh) _).grpNrFaces
        rw [f1, f2, f5]
        simp only
        rw [hI.chain, hI.ofb, chainStarts_append]
      · show (defaultPatchRegister mesh (extFacesD mesh) _).nrIntFaces +
            ((defaultPatchRegister mesh (extFacesD mesh) _).grpNrFaces.sum : Int) =
          ((defaultPatchRegister mesh (extFacesD mesh) _).nrFaces : Int)
        rw [f2, f4, f5]
        simp only
        have hbal := hI.balance
        have hle : st0.nrExtFacesInGroups ≤ nrExtFaces mesh := le_of_lt hc
        push_cast [List.sum_append, List.sum_cons, List.sum_nil, Nat.cast_sub hle] at hbal ⊢
        omega
    · rw [if_neg hc]
      refine ⟨hI.chain, ?_⟩
      have hbal := hI.balance
      have hr := hI.reg
      have hle := regCount_le_nrExt mesh st0
      omega

/-- C7 (witness): the tiling theorem applied to `tetMesh`. -/
theorem boundary_ranges_tile_w :
    tetB.grpStartFace = chainStarts tetB.nrIntFaces tetB.grpNrFaces ∧
    tetB.nrIntFaces + (tetB.grpNrFaces.sum : Int) = (tetB.nrFaces : Int) :=
  boundary_ranges_tile tetMesh tetB rfl


/-! ### C9: idempotence of the upper-triangular reorder pass -/

theorem stableSortBy_sorted_eq {α : Type} (key : α → Int) :
    ∀ (l : List α), List.Chain' (fun a b => key a ≤ key b) l → stableSortBy key l = l := by
  intro l
  induction l with
  | nil => intro _; rfl
  | cons x xs ih =>
    intro h
    simp only [stableSortBy]
    rw [ih h.tail]
    cases xs with
    | nil => rfl
    | cons y ys =>
      simp only [stableInsertBy]
      rw [if_pos (List.chain'_cons.mp h).1]

theorem chain'_range' (key : Nat → Int) :
    ∀ (n s : Nat), (∀ i, s ≤ i → i + 1 < s + n → key i ≤ key (i + 1)) →
      List.Chain' (fun a b => key a ≤ key b) (List.range' s n) := by
  intro n
  induction n with
  | zero => intro s _; simp
  | succ n ih =>
    intro s h
    cases n with
    | zero => simp
    | succ m =>
      show List.Chain' _ (s :: (s + 1) :: List.range' (s + 2) m)
      rw [List.chain'_cons]
      constructor
      · exact h s (le_refl s) (by omega)
      · have := ih (s + 1) (fun i h1 h2 => h i (by omega) (by omega))
        simpa using this

theorem map_getD_range' {α : Type} (d : α) :
    ∀ (n s : Nat) (l : List α), s + n ≤ l.length →
      (List.range' s n).map (fun i => l.getD i d) = extractSlice l s n := by
  intro n
  induction n with
  | zero => intro s l h; simp [extractSlice]
  | succ n ih =>
    intro s l h
    show (s :: List.range' (s + 1) n).map _ = _
    simp only [List.map_cons]
    rw [ih (s + 1) l (by omega)]
    unfold extractSlice
    have hs : s < l.length := by omega
    rw [List.drop_eq_getElem_cons hs, List.take_succ_cons]
    congr 1
    exact List.getD_eq_getElem l d hs

theorem writeSlice_extract {α : Type} (l : List α) (s n : Nat) (h : s + n ≤ l.length) :
    writeSlice l s (extractSlice l s n) = l := by
  unfold writeSlice extractSlice
  have hlen : ((l.drop s).take n).length = n := by
    rw [List.length_take, List.length_drop]
    omega
  rw [hlen]
  have h1 : (l.drop s).take n ++ l.drop (s + n) = l.drop s := by
    have h2 : l.drop (s + n) = (l.drop s).drop n := by
      rw [List.drop_drop]
    rw [h2]
    exact List.take_append_drop n (l.drop s)
  rw [List.append_assoc, h1, List.take_append_drop]

theorem sortFacesSlice_sorted_eq (py3 : Bool) (neighbour : List Int)
    (faces : List (List Nat)) (sId eId : Nat) (hs : sId ≤ eId)
    (hn : eId < neighbour.length) (hf : eId < faces.length)
    (hsorted : ∀ i, sId ≤ i → i < eId →
      neighbour.getD i 0 ≤ neighbour.getD (i + 1) 0) :
    sortFacesSlice py3 neighbour faces sId eId = (neighbour, faces) := by
  simp only [sortFacesSlice]
  have hinds : (if py3 then List.range' sId (eId + 1 - sId)
      else stableSortBy (fun i => neighbour.getD i 0) (List.range' sId (eId + 1 - sId))) =
      List.range' sId (eId + 1 - sId) := by
    cases py3 with
    | true => rfl
    | false =>
      show stableSortBy _ _ = _
      apply stableSortBy_sorted_eq
      apply chain'_range'
      intro i h1 h2
      exact hsorted i h1 (by omega)
  rw [hinds]
  rw [map_getD_range' 0 _ _ neighbour (by omega), map_getD_range' [] _ _ faces (by omega)]
  rw [writeSlice_extract _ _ _ (by omega), writeSlice_extract _ _ _ (by omega)]

theorem utLoop_sorted_noop (py3 : Bool) (owner : List Int) (I : Nat)
    (neighbour : List Int) (faces : List (List Nat))
    (hNI : I ≤ neighbour.length) (hFI : I ≤ faces.length)
    (hord : utOrdered owner neighbour I) :
    ∀ (remaining faceId ownedfaces : Nat),
      remaining + faceId = I →
      1 ≤ ownedfaces → ownedfaces ≤ faceId + 1 →
      (∀ j, faceId + 1 - ownedfaces ≤ j → j < faceId →
        owner.getD j 0 = owner.getD (j + 1) 0) →
      utLoop py3 owner remaining faceId ownedfaces neighbour faces = (neighbour, faces) := by
  intro remaining
  induction remaining with
  | zero => intro faceId ownedfaces _ _ _ _; rfl
  | succ remaining ih =>
    intro faceId ownedfaces hsum h1 h2 hrun
    simp only [utLoop]
    by_cases heq : owner.getD faceId 0 = owner.getD (faceId + 1) 0
    · rw [if_pos heq]
      apply ih (faceId + 1) (ownedfaces + 1) (by omega) (by omega) (by omega)
      intro j hj1 hj2
      by_cases hjf : j < faceId
      · exact hrun j (by omega) hjf
      · have hj : j = faceId := by omega
        subst hj
        exact heq
    · rw [if_neg heq]
      by_cases how : 1 < ownedfaces
      · rw [if_pos how]
        have hslice : sortFacesSlice py3 neighbour faces (faceId + 1 - ownedfaces) faceId =
            (neighbour, faces) := by
          apply sortFacesSlice_sorted_eq py3 neighbour faces _ _ (by omega)
            (by omega) (by omega)
          intro i hi1 hi2
          exact hord i (by omega) (hrun i hi1 hi2)
        rw [hslice]
        apply ih (faceId + 1) 1 (by omega) (by omega) (by omega)
        intro j hj1 hj2
        exact absurd hj2 (by omega)
      · rw [if_neg how]
        apply ih (faceId + 1) 1 (by omega) (by omega) (by omega)
        intro j hj1 hj2
        exact absurd hj2 (by omega)

/-- C9: applying the upper-triangular reorder pass (on either the
Python 3 or the Python 2 path) to owner/neighbour/faces arrays that are
already in upper-triangular order returns the neighbour and face arrays
unchanged (the pass never touches the owner array at all), so the pass
is idempotent. -/
theorem ut_pass_idempotent (py3 : Bool) (owner neighbour : List Int)
    (faces : List (List Nat)) (nrIntFaces : Nat)
    (hN : nrIntFaces ≤ neighbour.length) (hF : nrIntFaces ≤ faces.length)
    (hord : utOrdered owner neighbour nrIntFaces) :
    upperTriangularPass py3 owner nrIntFaces neighbour faces = (neighbour, faces) := by
  unfold upperTriangularPass
  exact utLoop_sorted_noop py3 owner nrIntFaces neighbour faces hN hF hord
    nrIntFaces 0 1 (by omega) (by omega) (by omega)
    (fun j hj1 hj2 => absurd hj2 (by omega))

/-- C9 (witness): the idempotence theorem applied to the ordered arrays
`owner = [0,0,1]`, `neighbour = [3,15]`, on both Python paths. -/
theorem ut_pass_idempotent_w :
    upperTriangularPass true [0,0,1] 2 [3,15] [[1],[2]] = ([3,15], [[1],[2]]) ∧
    upperTriangularPass false [0,0,1] 2 [3,15] [[1],[2]] = ([3,15], [[1],[2]]) := by
  have hord : utOrdered [0,0,1] [3,15] 2 := by
    intro i h1 h2
    have hi : i = 0 := by omega
    subst hi
    decide
  exact ⟨ut_pass_idempotent true [0,0,1] [3,15] [[1],[2]] 2 (by decide) (by decide) hord,
    ut_pass_idempotent false [0,0,1] [3,15] [[1],[2]] 2 (by decide) (by decide) hord⟩


/-! ### C10: a declared group with zero members breaks the boundary write -/

theorem baffle_length_pos (mesh : Mesh) (ids : List Nat)
    (hb : isGroupBaffle mesh ids = true) : 0 < ids.length := by
  rcases ids with _ | ⟨x, xs⟩
  · simp [isGroupBaffle] at hb
  · simp

theorem groupsFold_lengths (mesh : Mesh) :
    ∀ (gs : List (String × List Nat)) (st0 st : BState),
      gs.foldlM (processGroup mesh) st0 = .ok st →
      st.grpNames.length = st0.grpNames.length + gs.length ∧
      st.grpNrFaces.length = st0.grpNrFaces.length +
        (gs.filter fun g => decide (0 < g.2.length)).length ∧
      st.grpStartFace.length = st0.grpStartFace.length +
        (gs.filter fun g => decide (0 < g.2.length)).length := by
  intro gs
  induction gs with
  | nil =>
    intro st0 st h
    simp only [List.foldlM_nil] at h
    cases h
    simp
  | cons g gs ih =>
    intro st0 st h
    rw [List.foldlM_cons] at h
    obtain ⟨st1, hs1, h⟩ := except_bind_ok _ _ _ h
    obtain ⟨_, _, _, c4, c5, c6, _, _⟩ := processGroup_step mesh st0 g st1 hs1
    obtain ⟨d1, d2, d3⟩ := ih st1 st h
    rw [d1, d2, d3, c4, c5, c6]
    by_cases hb : isGroupBaffle mesh g.2 = true
    · have hp : 0 < g.2.length := baffle_length_pos mesh g.2 hb
      simp only [hb, if_true, List.filter_cons, hp, decide_True]
      simp [List.length_append, List.length_map]
      omega
    · rw [Bool.not_eq_true] at hb
      simp only [hb, Bool.false_eq_true, if_false]
      by_cases hp : 0 < g.2.length
      · simp only [if_pos hp, List.filter_cons, hp, decide_True]
        simp [List.length_append]
        omega
      · simp only [if_neg hp, List.filter_cons]
        have : decide (0 < g.2.length) = false := by simpa using hp
        simp [this]
        omega

theorem synth_lengths (mesh : Mesh) (st : BState) :
    (synthDefaultPatches mesh st).grpNames.length =
      st.grpNames.length + (if st.nrExtFacesInGroups < nrExtFaces mesh then 1 else 0) ∧
    (synthDefaultPatches mesh st).grpNrFaces.length =
      st.grpNrFaces.length + (if st.nrExtFacesInGroups < nrExtFaces mesh then 1 else 0) ∧
    (synthDefaultPatches mesh st).grpStartFace.length =
      st.grpStartFace.length + (if st.nrExtFacesInGroups < nrExtFaces mesh then 1 else 0) := by
  unfold synthDefaultPatches
  by_cases hc : st.nrExtFacesInGroups < nrExtFaces mesh
  · simp only [if_pos hc]
    obtain ⟨f1, f2, f3, _, _, _⟩ := defaultPatchRegister_fields mesh (extFacesD mesh)
      { st with grpStartFace := st.grpStartFace ++ [st.nrIntFaces + st.ofbcfid]
                grpNrFaces := st.grpNrFaces ++ [nrExtFaces mesh - st.nrExtFacesInGroups] }
    simp only [f1, f2, f3, List.length_append]
    simp
  · simp only [if_neg hc]
    simp

theorem pyGet_nat_error {α : Type} (l : List α) (i : Nat) (h : l.length ≤ i) :
    pyGet l (i : Int) = .error "IndexError" := by
  unfold pyGet pyIdx
  have h1 : ¬((i : Int) < 0) := by omega
  rw [if_neg h1]
  have h2 : ¬(0 ≤ (i : Int) ∧ (i : Int) < l.length) := by
    rintro ⟨_, hlt⟩
    omega
  rw [if_neg h2]

theorem pyGet_nat_ok {α : Type} (l : List α) (i : Nat) (h : i < l.length) :
    ∃ v, pyGet l (i : Int) = .ok v := by
  unfold pyGet pyIdx
  have h1 : ¬((i : Int) < 0) := by omega
  rw [if_neg h1]
  have h2 : (0 ≤ (i : Int) ∧ (i : Int) < l.length) := by
    constructor <;> omega
  rw [if_pos h2]
  cases hv : l.get? ((i : Int).toNat) with
  | none =>
    rw [List.get?_eq_none] at hv
    exfalso
    omega
  | some v =>
    refine ⟨v, ?_⟩
    show (match l.get? ((i : Int).toNat) with
      | some v => Except.ok v
      | none => Except.error "IndexError") = Except.ok v
    rw [hv]

theorem pyGet_error_val {α : Type} (l : List α) (i : Int) (e : String)
    (h : pyGet l i = .error e) : e = "IndexError" := by
  unfold pyGet at h
  cases hj : pyIdx l.length i with
  | none => rw [hj] at h; cases h; rfl
  | some j =>
    rw [hj] at h
    have h' : (match l.get? j with
        | some v => Except.ok v
        | none => Except.error "IndexError") = Except.error e := h
    cases hv : l.get? j with
    | none => rw [hv] at h'; cases h'; rfl
    | some v => rw [hv] at h'; cases h' 

theorem writeBoundaryAux_error (counts : List Nat) (starts : List Int) :
    ∀ (names : List String) (ind : Nat),
      ind ≤ counts.length → counts.length < ind + names.length →
      writeBoundaryAux counts starts ind names = .error "IndexError" := by
  intro names
  induction names with
  | nil =>
    intro ind h1 h2
    simp at h2
    omega
  | cons gname rest ih =>
    intro ind h1 h2
    simp only [writeBoundaryAux]
    by_cases hc : counts.length ≤ ind
    · rw [pyGet_nat_error counts ind hc]
      rfl
    · push_neg at hc
      obtain ⟨v, hv⟩ := pyGet_nat_ok counts ind hc
      rw [hv]
      cases hs : pyGet starts (ind : Int) with
      | error e =>
        have he : e = "IndexError" := pyGet_error_val starts (ind : Int) e hs
        rw [he]
        rfl
      | ok s =>
        rw [ih (ind + 1) (by omega) (by simp at h2 ⊢; omega)]
        rfl


theorem filter_length_lt {α : Type} (p : α → Bool) (l : List α) (x : α)
    (hx : x ∈ l) (hpx : p x = false) : (l.filter p).length < l.length := by
  induction l with
  | nil => cases hx
  | cons y ys ih =>
    rw [List.filter_cons]
    rcases List.mem_cons.mp hx with rfl | hmem
    · rw [hpx]
      simp only [Bool.false_eq_true, if_false, List.length_cons]
      exact Nat.lt_succ_of_le (List.length_filter_le p ys)
    · by_cases hpy : p y = true
      · rw [if_pos hpy]
        simp only [List.length_cons]
        exact Nat.succ_lt_succ (ih hmem)
      · rw [Bool.not_eq_true] at hpy
        rw [hpy]
        simp only [Bool.false_eq_true, if_false, List.length_cons]
        have := ih hmem
        omega

/-- C10: for every mesh declaring a face group with zero member faces
(and whose boundary pass succeeds), the group's name is appended to the
name list but no entry to the start-face and face-count lists, so the
face-count list is strictly shorter than the name list the boundary
write iterates, and the per-patch write indexes past the end of the
face-count list, raising an IndexError instead of completing the
export. -/
theorem empty_group_boundary_error (mesh : Mesh) (st : BState) (gname : String)
    (hmem : (gname, ([] : List Nat)) ∈ mesh.groups)
    (hb : boundaryPass mesh = .ok st) :
    st.grpNrFaces.length < st.grpNames.length ∧
    writeBoundary st = .error "IndexError" := by
  unfold boundaryPass at hb
  cases hg : groupsFold mesh with
  | error e => rw [hg] at hb; simp [Except.map] at hb
  | ok st0 =>
    rw [hg] at hb
    simp only [Except.map] at hb
    rw [Except.ok.injEq] at hb
    subst hb
    obtain ⟨d1, d2, d3⟩ := groupsFold_lengths mesh mesh.groups (initBState mesh) st0 hg
    obtain ⟨s1, s2, s3⟩ := synth_lengths mesh st0
    have hfl : (mesh.groups.filter fun g => decide (0 < g.2.length)).length <
        mesh.groups.length :=
      filter_length_lt _ mesh.groups (gname, []) hmem (by simp)
    have hlt : st0.grpNrFaces.length < st0.grpNames.length := by
      rw [d1, d2]
      simp only [initBState, List.length_nil]
      omega
    have hlt2 : (synthDefaultPatches mesh st0).grpNrFaces.length <
        (synthDefaultPatches mesh st0).grpNames.length := by
      rw [s1, s2]
      omega
    refine ⟨hlt2, ?_⟩
    unfold writeBoundary
    rw [writeBoundaryAux_error _ _ _ 0 (by omega) (by omega)]
    rfl

/-- C10 (witness): the empty-group theorem applied to `emptyGrpMesh`. -/
theorem empty_group_boundary_error_w :
    emptyGrpSt.grpNrFaces.length < emptyGrpSt.grpNames.length ∧
    writeBoundary emptyGrpSt = .error "IndexError" :=
  empty_group_boundary_error emptyGrpMesh emptyGrpSt "empty" (by decide) rfl

end SalomeToFoam
